import Mathlib

/-!
Shallow embedding of the watermark-remover repository
(processors/pdf_processor.py, processors/word_processor.py,
processors/excel_processor.py, processors/pptx_processor.py,
processors/base.py, watermark_remover.py) and proofs about the
frozen specification claims.

Conventions of the embedding:
* Python strings are `List Char`.
* Python's `re.sub(pattern, '', s)` for the concrete tag patterns used by the
  repository is implemented by a left-to-right scanner (`subRuleG`): Python's
  `re.sub` scans for the leftmost match, replaces it by the empty string, and
  resumes scanning after the match. The repository's patterns all have the
  shape `<lit[^>]*/?>` (match up to the first `>` after the literal),
  `<lit[^>]*/>` (same but the `>` must be preceded by `/`), or
  `<lit[^>]*>.*?LIT1.*?LIT2` (non-greedy: up to the earliest occurrence of
  each stage literal, with `re.DOTALL`). All patterns are compiled with
  `re.IGNORECASE`, embedded here by comparing `Char.toLower` images.
* Fallible operations return failure-carrying results; machine floats of the
  geometry are embedded as real numbers.
-/

/-- Result messages of the processors, abstracting the concrete Chinese
human-readable strings of the source (one constructor per distinct message). -/
inductive Msg where
  | pdfDone
  | pdfNeedsPassword
  | pdfFailed
  | pptxDone
  | pptxBadZip
  | officeEncrypted
  | wordDone
  | wordFailed
  | docConvertFailed
  | excelDone
  | excelFailed
  | xlsCopiedOnly
  deriving DecidableEq

/-- processors/base.py `ProcessResult`. -/
structure ProcessResult where
  success : Bool
  outputPath : Option (List Char)
  message : Msg
  removedCount : Nat
  pageCount : Nat
  deriving DecidableEq

/-- Case-insensitive matching step: compare a pattern-literal fragment `z`
against the text `t` char by char using `Char.toLower` (re.IGNORECASE).
Returns `inl r` (literal exhausted, remaining text `r`), `inr z2`
(text exhausted, remaining literal `z2`, nonempty), or `none` (mismatch). -/
def ciStep : List Char → List Char → Option (List Char ⊕ List Char)
  | [], t => some (Sum.inl t)
  | z :: zs, [] => some (Sum.inr (z :: zs))
  | z :: zs, c :: cs => if z.toLower = c.toLower then ciStep zs cs else none

/-- Full case-insensitive literal match at the head of the text: `some r` iff
the literal `z` occurs (case-insensitively) as a prefix of `t`, with `r` the
rest of the text. -/
def ciPrefixMatch (z t : List Char) : Option (List Char) :=
  match ciStep z t with
  | some (Sum.inl r) => some r
  | some (Sum.inr _) => none
  | none => none

/-- Consume through the first `>` of the text (the semantics of the greedy
`[^>]*` followed by `/?>` in the source patterns: the match always extends to
the first `>` after the literal, and fails if there is none). -/
def skipToGt : List Char → Option (List Char)
  | [] => none
  | c :: cs => if c = '>' then some cs else skipToGt cs

/-- Consume through the first `>` of the text, requiring the character right
before that `>` to be `/` (the semantics of `[^>]*/>`). -/
def skipToGtSlash : List Char → Option (List Char)
  | '/' :: '>' :: cs => some cs
  | c :: cs => if c = '>' then none else skipToGtSlash cs
  | [] => none

/-- Consume through the earliest case-insensitive occurrence of `lit` in the
text (the semantics of a non-greedy `.*?lit` with `re.DOTALL`). -/
def findCI (lit : List Char) : List Char → Option (List Char)
  | [] => ciPrefixMatch lit []
  | c :: cs =>
    match ciPrefixMatch lit (c :: cs) with
    | some r => some r
    | none => findCI lit cs

/-- Consume the stage literals of a non-greedy multi-part pattern in order,
each up to its earliest occurrence. -/
def stagesConsume : List (List Char) → List Char → Option (List Char)
  | [], s => some s
  | st :: rest, s => (findCI st s).bind (stagesConsume rest)

/-- Matcher for the pattern `<lit[^>]*/?>` (self-closing or opening tag):
literal, then everything up to and including the first `>`. -/
def tryMatchTag (lit s : List Char) : Option (List Char) :=
  (ciPrefixMatch lit s).bind skipToGt

/-- Matcher for the pattern `<lit[^>]*/>`. -/
def tryMatchTagSlash (lit s : List Char) : Option (List Char) :=
  (ciPrefixMatch lit s).bind skipToGtSlash

/-- Matcher for the pattern `<lit[^>]*>.*?st1.*?st2...` with `re.DOTALL`
(e.g. a full open/close element pair, non-greedy to the nearest closer). -/
def tryMatchStaged (lit : List Char) (stages : List (List Char)) (s : List Char) :
    Option (List Char) :=
  ((ciPrefixMatch lit s).bind skipToGt).bind (stagesConsume stages)

/-- Fuelled left-to-right `re.sub(pattern, '', s)` scanner for a matcher `m`:
at each position try the matcher; on success emit nothing and resume after the
match, otherwise emit the character and advance by one.  Every matcher used in
this file consumes at least one character, so fuel `s.length` is enough. -/
def subRuleGF (m : List Char → Option (List Char)) : Nat → List Char → List Char
  | 0, s => s
  | _ + 1, [] => []
  | fuel + 1, c :: rest =>
    match m (c :: rest) with
    | some rem => subRuleGF m fuel rem
    | none => c :: subRuleGF m fuel rest

/-- `re.sub(pattern, '', s)` for matcher `m`. -/
def subRuleG (m : List Char → Option (List Char)) (s : List Char) : List Char :=
  subRuleGF m s.length s

/-- `re.sub` for the `<lit[^>]*/?>`-shaped patterns. -/
def subRule (lit s : List Char) : List Char :=
  subRuleG (tryMatchTag lit) s

/-- Case-insensitive substring occurrence test (used for stating that a
pattern literal occurs nowhere in a piece of text). -/
def occursCI (lit : List Char) : List Char → Bool
  | [] => (ciPrefixMatch lit []).isSome
  | c :: cs => (ciPrefixMatch lit (c :: cs)).isSome || occursCI lit cs

/-- Python's exact (case-sensitive) substring test `needle in haystack`. -/
def containsSub (needle : List Char) : List Char → Bool
  | [] => needle.isEmpty
  | c :: rest => needle.isPrefixOf (c :: rest) || containsSub needle rest

/-- Lower-case image of a string (`str.lower()` for the ASCII letters that
occur in the configured patterns). -/
def lowerL (s : List Char) : List Char :=
  s.map Char.toLower

/- ===================== word_processor.py ===================== -/

/-- Tag-name literal of the rule `<w:documentProtection[^>]*/?>`. -/
def docProtLit : List Char := "<w:documentProtection".toList

/-- Tag-name literal of the rule `<w:writeProtection[^>]*/?>`. -/
def writeProtLit : List Char := "<w:writeProtection".toList

/-- word/settings.xml processing (word_processor.py lines 124-141): apply the
two protection-removal rules in order; `removed` is incremented by one iff the
final content differs from the original. Returns (new content, removed delta). -/
def processSettings (content : List Char) : List Char × Nat :=
  let c1 := subRule docProtLit content
  let c2 := subRule writeProtLit c1
  (c2, if c2 = content then 0 else 1)

/-- Literal of the `<w:pict...>` watermark rules of word headers. -/
def pictLit : List Char := "<w:pict".toList

/-- Closing literal `</w:pict>`. -/
def pictCloseLit : List Char := "</w:pict>".toList

/-- Stage literal `type="#_x0000_t136"`. -/
def t136Lit : List Char := "type=\"#_x0000_t136\"".toList

/-- Stage literal `rotation:`. -/
def rotationLit : List Char := "rotation:".toList

/-- Stage literal `PowerPlusWaterMarkObject`. -/
def powerPlusLit : List Char := "PowerPlusWaterMarkObject".toList

/-- word/header*.xml processing (word_processor.py lines 146-163): the three
VML watermark rules in order, one removed-delta iff the part changed. -/
def processHeader (content : List Char) : List Char × Nat :=
  let c1 := subRuleG (tryMatchStaged pictLit [t136Lit, pictCloseLit]) content
  let c2 := subRuleG (tryMatchStaged pictLit [rotationLit, pictCloseLit]) c1
  let c3 := subRuleG (tryMatchStaged pictLit [powerPlusLit, pictCloseLit]) c2
  (c3, if c3 = content then 0 else 1)

/-- Literal of the `<w:background...>` rules of word/document.xml. -/
def bgLit : List Char := "<w:background".toList

/-- Closing literal `</w:background>`. -/
def bgCloseLit : List Char := "</w:background>".toList

/-- word/document.xml processing (word_processor.py lines 166-179): the
open/close background rule, then the `/>`-self-closing background rule. -/
def processDocumentXml (content : List Char) : List Char × Nat :=
  let c1 := subRuleG (tryMatchStaged bgLit [bgCloseLit]) content
  let c2 := subRuleG (tryMatchTagSlash bgLit) c1
  (c2, if c2 = content then 0 else 1)

/-- Word processing mode (word_processor.py MODE_PROTECTION / MODE_WATERMARK /
MODE_ALL). -/
inductive WMode where
  | protection
  | watermark
  | allRules
  deriving DecidableEq

/-- The XML parts of an extracted .docx relevant to `_process_docx`
(a part that is `none` models a member absent from the archive, for which the
corresponding rule block is skipped). -/
structure DocxParts where
  settings : Option (List Char)
  headers : List (List Char)
  document : Option (List Char)
  deriving DecidableEq

/-- Accumulate the part rewrite of an optional part. -/
def stepPart (f : List Char → List Char × Nat) :
    Option (List Char) → Option (List Char) × Nat
  | none => (none, 0)
  | some c => let r := f c; (some r.1, r.2)

/-- `_process_docx` over the extracted parts (word_processor.py lines
109-189): settings rules in protection/all mode, header and document rules in
watermark/all mode; `removed` accumulates one per changed part. -/
def processDocxParts (mode : WMode) (d : DocxParts) : DocxParts × Nat :=
  let s :=
    if mode = WMode.protection ∨ mode = WMode.allRules then
      stepPart processSettings d.settings
    else (d.settings, 0)
  let hs :=
    if mode = WMode.watermark ∨ mode = WMode.allRules then
      (d.headers.map fun h => processHeader h)
    else d.headers.map fun h => (h, 0)
  let dx :=
    if mode = WMode.watermark ∨ mode = WMode.allRules then
      stepPart processDocumentXml d.document
    else (d.document, 0)
  (⟨s.1, hs.map Prod.fst, dx.1⟩,
    s.2 + (hs.map Prod.snd).sum + dx.2)

/-- A word-processor input file: its (path) extension, whether its bytes form
a ZIP archive (`zipfile.is_zipfile`), and its extracted XML parts (meaningful
only when it is a ZIP). -/
structure WordFile where
  ext : List Char
  isZip : Bool
  parts : DocxParts

/-- Extension literals. -/
def dotDocx : List Char := ".docx".toList

/-- Extension literal `.doc`. -/
def dotDoc : List Char := ".doc".toList

/-- Extension literal `.xlsx`. -/
def dotXlsx : List Char := ".xlsx".toList

/-- Extension literal `.xls`. -/
def dotXls : List Char := ".xls".toList

/-- WordProcessor.process (word_processor.py lines 47-96).  `convertResult`
models the external `.doc`-to-`.docx` conversion collaborator
(`_convert_doc_to_docx`, out of core scope): `some g` is a successful
conversion, `none` a failed one.  The early gate: a `.docx` extension whose
bytes are not a ZIP archive is reported as an encrypted document. -/
def wordProcess (mode : WMode) (convertResult : Option WordFile) (f : WordFile)
    (outPath : List Char) : ProcessResult :=
  if lowerL f.ext = dotDocx ∧ f.isZip = false then
    ⟨false, none, Msg.officeEncrypted, 0, 0⟩
  else if lowerL f.ext = dotDoc then
    match convertResult with
    | some g =>
      if g.isZip then
        let r := processDocxParts mode g.parts
        ⟨true, some outPath, Msg.wordDone, r.2, 0⟩
      else ⟨false, none, Msg.wordFailed, 0, 0⟩
    | none => ⟨false, none, Msg.docConvertFailed, 0, 0⟩
  else
    if f.isZip then
      let r := processDocxParts mode f.parts
      ⟨true, some outPath, Msg.wordDone, r.2, 0⟩
    else ⟨false, none, Msg.wordFailed, 0, 0⟩

/- ===================== excel_processor.py ===================== -/

/-- Literal of the workbook protection rules. -/
def wbProtLit : List Char := "<workbookProtection".toList

/-- Closing literal `</workbookProtection>`. -/
def wbProtCloseLit : List Char := "</workbookProtection>".toList

/-- Literal of the sheet protection rules. -/
def sheetProtLit : List Char := "<sheetProtection".toList

/-- Closing literal `</sheetProtection>`. -/
def sheetProtCloseLit : List Char := "</sheetProtection>".toList

/-- Literal of the background-picture rule. -/
def pictureLit : List Char := "<picture".toList

/-- xl/workbook.xml processing (excel_processor.py lines 93-110): the
self-closing rule then the pair rule, one removed-delta iff changed. -/
def processWorkbook (content : List Char) : List Char × Nat :=
  let c1 := subRule wbProtLit content
  let c2 := subRuleG (tryMatchStaged wbProtLit [wbProtCloseLit]) c1
  (c2, if c2 = content then 0 else 1)

/-- xl/worksheets/sheet*.xml processing (excel_processor.py lines 113-130):
sheetProtection self-closing, sheetProtection pair, picture self-closing;
one removed-delta iff the sheet part changed. -/
def processSheet (content : List Char) : List Char × Nat :=
  let c1 := subRule sheetProtLit content
  let c2 := subRuleG (tryMatchStaged sheetProtLit [sheetProtCloseLit]) c1
  let c3 := subRule pictureLit c2
  (c3, if c3 = content then 0 else 1)

/-- The XML parts of an extracted .xlsx relevant to `_process_xlsx`. -/
structure XlsxParts where
  workbook : Option (List Char)
  sheets : List (List Char)
  deriving DecidableEq

/-- `_process_xlsx` over the extracted parts (excel_processor.py lines
79-140): workbook rules, then each sheet's rules; `removed` accumulates one
per changed part. -/
def processXlsxParts (p : XlsxParts) : XlsxParts × Nat :=
  let w := stepPart processWorkbook p.workbook
  let ss := p.sheets.map fun sh => processSheet sh
  (⟨w.1, ss.map Prod.fst⟩, w.2 + (ss.map Prod.snd).sum)

/-- An excel-processor input file.  `binLock` models whether the legacy `.xls`
binary fallback patterns occur in the raw bytes; `binOk` models whether the
binary fallback's file I/O succeeds. -/
structure ExcelFile where
  ext : List Char
  isZip : Bool
  parts : XlsxParts
  binLock : Bool
  binOk : Bool

/-- ExcelProcessor.process (excel_processor.py lines 41-77).  `convertResult`
models the external `.xls`-to-`.xlsx` conversion collaborator.  The early
gate: a `.xlsx` extension whose bytes are not a ZIP archive is reported as an
encrypted document before anything else happens. -/
def excelProcess (convertResult : Option ExcelFile) (f : ExcelFile)
    (outPath : List Char) : ProcessResult :=
  if lowerL f.ext = dotXlsx ∧ f.isZip = false then
    ⟨false, none, Msg.officeEncrypted, 0, 0⟩
  else if lowerL f.ext = dotXls then
    match convertResult with
    | some g =>
      if g.isZip then
        let r := processXlsxParts g.parts
        ⟨true, some outPath, Msg.excelDone, r.2, 0⟩
      else ⟨false, none, Msg.excelFailed, 0, 0⟩
    | none =>
      if f.binOk then
        ⟨true, some outPath, Msg.excelDone, if f.binLock then 1 else 0, 0⟩
      else ⟨true, some outPath, Msg.xlsCopiedOnly, 0, 0⟩
  else
    if f.isZip then
      let r := processXlsxParts f.parts
      ⟨true, some outPath, Msg.excelDone, r.2, 0⟩
    else ⟨false, none, Msg.excelFailed, 0, 0⟩

/- ===================== pdf_processor.py ===================== -/

/-- PDF detector configuration (pdf_processor.py constructor defaults
`rotation_threshold=0.1`, `angle_min=5.0`, `angle_max=85.0`), with the machine
floats embedded as real numbers. -/
structure PDFConfig where
  rotationThreshold : ℝ
  angleMin : ℝ
  angleMax : ℝ

/-- The default configuration. -/
def defaultPDFConfig : PDFConfig := ⟨0.1, 5, 85⟩

/-- A text matrix `a b c d e f Tm` with real components. -/
structure TmReal where
  a : ℝ
  b : ℝ
  c : ℝ
  d : ℝ
  e : ℝ
  f : ℝ

/-- `abs(math.degrees(math.atan2(b, 1)))` of pdf_processor.py line 90:
since the second argument of `atan2` is the positive constant `1`,
`atan2 b 1 = arctan b`, and `math.degrees x = x * (180 / pi)`. -/
noncomputable def pdfAngle (b : ℝ) : ℝ :=
  |Real.arctan b * (180 / Real.pi)|

/-- The rotated-text condition of pdf_processor.py lines 89-91 applied to the
components `b`, `c` of a text matrix: a shear component exceeds the threshold
strictly, and the derived angle lies in the inclusive band. -/
def rotCond (cfg : PDFConfig) (b c : ℝ) : Prop :=
  (cfg.rotationThreshold < |b| ∨ cfg.rotationThreshold < |c|) ∧
    cfg.angleMin ≤ pdfAngle b ∧ pdfAngle b ≤ cfg.angleMax

/-- A `BT ... ET` text-object block, as seen by `filter_watermarks`: the list
of its `Tm` matrix instructions in textual order (the regex `tm_pattern.search`
extracts the first one), over an arbitrary matrix type `τ`, plus the raw block
text used for the keyword test. -/
structure TextBlock (τ : Type) where
  tms : List τ
  content : List Char
  deriving DecidableEq

/-- Classification of a block as rotated text by pdf_processor.py lines 85-91:
`tm_pattern.search` yields the first `Tm` match of the block (or nothing), and
the rotated condition is evaluated on it. -/
def blockRotatedProp (cfg : PDFConfig) (bl : TextBlock TmReal) : Prop :=
  match bl.tms.head? with
  | some tm => rotCond cfg tm.b tm.c
  | none => False

/-- Classification following the specification's words instead of the source
("extracts the most recent text-positioning matrix instruction within it"):
the last `Tm` of the block.  Stated only to compare with `blockRotatedProp`. -/
def blockRotatedSpecLast (cfg : PDFConfig) (bl : TextBlock TmReal) : Prop :=
  match bl.tms.getLast? with
  | some tm => rotCond cfg tm.b tm.c
  | none => False

/-- Watermark classifications recorded by a block (the
`detected_patterns.add` calls), tagged structurally. -/
inductive Detection (τ : Type) where
  | rotated (tm : τ)
  | keyword (kw : List Char)
  deriving DecidableEq

/-- The keyword loop of `filter_watermarks` (pdf_processor.py lines 98-103)
over the configured keyword list: returns the removal increments, whether the
loop returned the empty replacement (apply mode, first hit), and the matched
keywords recorded (all of them in preview mode, only the first in apply mode). -/
def kwLoop (preview : Bool) (content : List Char) :
    List (List Char) → Nat × Bool × List (List Char)
  | [] => (0, false, [])
  | kw :: rest =>
    if containsSub kw content then
      if preview then
        let r := kwLoop preview content rest
        (r.1 + 1, r.2.1, kw :: r.2.2)
      else (1, true, [kw])
    else kwLoop preview content rest

/-- Outcome of `filter_watermarks` on one block: the `page_removed` increment,
the replacement (`none` = block replaced by the empty string), and the
detections recorded. -/
structure BlockOut (τ : Type) where
  removed : Nat
  kept : Option (TextBlock τ)
  dets : List (Detection τ)
  deriving DecidableEq

/-- The keyword stage reached when the rotation branch did not return
(no `Tm`, rotation test false, or preview mode fall-through is handled by the
caller). -/
def kwStage {τ : Type} (preview : Bool) (kws : List (List Char))
    (bl : TextBlock τ) : BlockOut τ :=
  let r := kwLoop preview bl.content kws
  ⟨r.1, if r.2.1 then none else some bl, r.2.2.map Detection.keyword⟩

/-- `filter_watermarks` (pdf_processor.py lines 76-105) on one block, with the
float evaluation of the rotated-text condition abstracted as a boolean test
`rotTest` on the block's first `Tm` matrix: in apply mode a rotated block is
replaced by the empty string at once (the keyword loop is never reached); in
preview mode the rotation detection falls through to the keyword loop. -/
def filterBlock {τ : Type} (rotTest : τ → Bool) (preview : Bool)
    (kws : List (List Char)) (bl : TextBlock τ) : BlockOut τ :=
  match bl.tms.head? with
  | some tm =>
    if rotTest tm then
      if preview then
        let r := kwLoop true bl.content kws
        ⟨1 + r.1, some bl, Detection.rotated tm :: r.2.2.map Detection.keyword⟩
      else ⟨1, none, [Detection.rotated tm]⟩
    else kwStage preview kws bl
  | none => kwStage preview kws bl

/-- A decoded content stream, as the alternation produced by
`re.sub(r'(BT\s+.*?ET)', ..., text)`: raw (untouched) text segments and
`BT ... ET` blocks. -/
inductive PDFSeg (τ : Type) where
  | raw (s : List Char)
  | blk (b : TextBlock τ)
  deriving DecidableEq

/-- One content stream of a page. -/
structure PDFStream (τ : Type) where
  segs : List (PDFSeg τ)
  deriving DecidableEq

/-- One page: the list of its content streams (a page without `/Contents`
has the empty list). -/
structure PDFPage (τ : Type) where
  streams : List (PDFStream τ)
  deriving DecidableEq

/-- A PDF document as seen by the processor: whether `pikepdf.open` raises
`PasswordError`, whether the empty-password retry opens it, whether an
internal fault (any other exception) occurs during processing, and its pages. -/
structure PDFDoc (τ : Type) where
  needsPassword : Bool
  emptyPwWorks : Bool
  fault : Bool
  pages : List (PDFPage τ)
  deriving DecidableEq

/-- The page-removal increment contributed by one segment. -/
def segremoved {τ : Type} (rotTest : τ → Bool) (preview : Bool)
    (kws : List (List Char)) : PDFSeg τ → Nat
  | PDFSeg.raw _ => 0
  | PDFSeg.blk b => (filterBlock rotTest preview kws b).removed

/-- Apply-mode rewriting of one segment (`filter_watermarks` substitution):
a removed block becomes the empty string, everything else is kept verbatim. -/
def segApply {τ : Type} (rotTest : τ → Bool) (kws : List (List Char)) :
    PDFSeg τ → PDFSeg τ
  | PDFSeg.raw s => PDFSeg.raw s
  | PDFSeg.blk b =>
    match (filterBlock rotTest false kws b).kept with
    | some b2 => PDFSeg.blk b2
    | none => PDFSeg.raw []

/-- `page_removed` summed over one stream. -/
def streamRemoved {τ : Type} (rotTest : τ → Bool) (preview : Bool)
    (kws : List (List Char)) (st : PDFStream τ) : Nat :=
  (st.segs.map (segremoved rotTest preview kws)).sum

/-- `page_removed` of one page. -/
def pageRemoved {τ : Type} (rotTest : τ → Bool) (preview : Bool)
    (kws : List (List Char)) (pg : PDFPage τ) : Nat :=
  (pg.streams.map (streamRemoved rotTest preview kws)).sum

/-- Total watermark-match count of a document: the sum of `page_removed`
over all pages (what the page loop adds to `stats['removed']`). -/
def docRemoved {τ : Type} (rotTest : τ → Bool) (preview : Bool)
    (kws : List (List Char)) (doc : PDFDoc τ) : Nat :=
  (doc.pages.map (pageRemoved rotTest preview kws)).sum

/-- The in-memory document after the apply-mode stream rewrites. -/
def applyDoc {τ : Type} (rotTest : τ → Bool) (kws : List (List Char))
    (doc : PDFDoc τ) : PDFDoc τ :=
  { doc with
    pages := doc.pages.map fun pg =>
      ⟨pg.streams.map fun st => ⟨st.segs.map (segApply rotTest kws)⟩⟩ }

/-- Observable outcome of `PDFProcessor.process`: the returned
`ProcessResult`, the document written to the output path by `pdf.save`
(`none` = the processor wrote no file at all; `pdf.save` is the only file
write in PDFProcessor.process), and the in-memory document when processing
ended. -/
structure PDFOutcome (τ : Type) where
  res : ProcessResult
  savedDoc : Option (PDFDoc τ)
  memDoc : PDFDoc τ
  deriving DecidableEq

/-- `PDFProcessor.process` (pdf_processor.py lines 30-130).  Control flow of
the source: open (PasswordError -> empty-password retry, whose success adds 1
to `stats['removed']`; failure returns the password failure result); any other
internal fault is caught by the outer handler and returned as a failure
result; otherwise every page's streams are filtered, `stats['removed']`
accumulates the page removals, and `pdf.save(output_path)` runs iff not in
preview mode and the removed counter is positive.  The result reports the
output path only in apply mode. -/
def pdfProcess {τ : Type} (rotTest : τ → Bool) (preview : Bool)
    (kws : List (List Char)) (outPath : List Char) (doc : PDFDoc τ) :
    PDFOutcome τ :=
  if doc.needsPassword ∧ doc.emptyPwWorks = false then
    ⟨⟨false, none, Msg.pdfNeedsPassword, 0, 0⟩, none, doc⟩
  else if doc.fault then
    ⟨⟨false, none, Msg.pdfFailed, 0, 0⟩, none, doc⟩
  else
    let bump : Nat := if doc.needsPassword then 1 else 0
    let removed := bump + docRemoved rotTest preview kws doc
    let mem := if preview then doc else applyDoc rotTest kws doc
    ⟨⟨true, if preview then none else some outPath, Msg.pdfDone, removed,
        doc.pages.length⟩,
      if preview = false ∧ 0 < removed then some mem else none, mem⟩

/- ===================== pptx_processor.py ===================== -/

/-- PPTX detector configuration (pptx_processor.py constructor defaults). -/
structure PPTXConfig where
  namePatterns : List (List Char)
  detectWordart : Bool
  alphaThreshold : Nat

/-- The default configuration: name patterns 艺术字 / WordArt / 水印,
WordArt detection on, alpha threshold 80000. -/
def defaultPPTXConfig : PPTXConfig :=
  ⟨["艺术字".toList, "WordArt".toList, "水印".toList], true, 80000⟩

/-- One `p:sp` shape of a slide's shape tree: the `name` attribute of its
`p:cNvPr` child (`none` = no `cNvPr` element, in which case the source skips
every check; an empty list models a present but empty name attribute), whether
its `a:bodyPr` carries `fromWordArt="1"`, and the value of its `a:alpha`
element (`none` = no such element; the `val` attribute default 100000 is
already applied). -/
structure PShape where
  name : Option (List Char)
  fromWordArt : Bool
  alphaVal : Option Nat
  deriving DecidableEq

/-- Classification labels for a shape. -/
inductive ShapeTag where
  | named (pattern : List Char)
  | wordartTransparent
  deriving DecidableEq

/-- Shape classification (pptx_processor.py lines 97-115): first name-pattern
matching case-insensitively as a substring wins and stops the checks; only
when no pattern matched (the for-else) and WordArt detection is enabled is the
`fromWordArt` body checked, and the shape is a watermark when its alpha value
is strictly below the threshold. -/
def classifyShape (cfg : PPTXConfig) (s : PShape) : Option ShapeTag :=
  match s.name with
  | none => none
  | some nm =>
    match cfg.namePatterns.find? (fun p => containsSub (lowerL p) (lowerL nm)) with
    | some p => some (ShapeTag.named p)
    | none =>
      if cfg.detectWordart ∧ s.fromWordArt then
        match s.alphaVal with
        | some v => if v < cfg.alphaThreshold then some ShapeTag.wordartTransparent else none
        | none => none
      else none

/-- One slide: its direct `p:sp` shape children in document order. -/
structure PSlide where
  shapes : List PShape
  deriving DecidableEq

/-- A presentation as seen by the processor: whether the bytes form a ZIP
archive, whether ppt/presentation.xml contains a `p:modifyVerifier` element
(matched by the two protection regexes), and the slides in their numeric
file-name order. -/
structure PPTXDoc where
  isZip : Bool
  presProtected : Bool
  slides : List PSlide
  deriving DecidableEq

/-- The watermark count of one slide. -/
def slideWmCount (cfg : PPTXConfig) (sl : PSlide) : Nat :=
  (sl.shapes.filter (fun s => (classifyShape cfg s).isSome)).length

/-- The total shape-watermark count of a presentation. -/
def pptxWmCount (cfg : PPTXConfig) (d : PPTXDoc) : Nat :=
  (d.slides.map (slideWmCount cfg)).sum

/-- Apply-mode excision of the classified shapes of one slide, preserving the
order of the surviving siblings. -/
def slideApply (cfg : PPTXConfig) (sl : PSlide) : PSlide :=
  ⟨sl.shapes.filter (fun s => (classifyShape cfg s).isNone)⟩

/-- Observable outcome of `PPTXProcessor.process`: the returned result and the
document repacked to the output path (`none` = no output file was written;
the repack loop is the only write to the output path in the source). -/
structure PPTXOutcome where
  res : ProcessResult
  savedDoc : Option PPTXDoc
  deriving DecidableEq

/-- `PPTXProcessor.process` (pptx_processor.py lines 42-148).  A non-ZIP input
fails as format-error/encrypted.  The presentation-protection regexes run on
the extracted temp copy even in preview mode and add 1 to the removed counter
when they match; slide watermarks add their count; shapes are excised only in
apply mode; the repack to the output path runs iff not preview and the removed
counter is positive; the result carries the output path only in apply mode. -/
def pptxProcess (cfg : PPTXConfig) (preview : Bool) (outPath : List Char)
    (d : PPTXDoc) : PPTXOutcome :=
  if d.isZip = false then ⟨⟨false, none, Msg.pptxBadZip, 0, 0⟩, none⟩
  else
    let protBump : Nat := if d.presProtected then 1 else 0
    let removed := protBump + pptxWmCount cfg d
    let newDoc : PPTXDoc :=
      ⟨true, false, if preview then d.slides else d.slides.map (slideApply cfg)⟩
    ⟨⟨true, if preview then none else some outPath, Msg.pptxDone, removed,
        d.slides.length⟩,
      if preview = false ∧ 0 < removed then some newDoc else none⟩

/- ===================== watermark_remover.py (batch CLI) ===================== -/

/-- Python exception classes relevant to the batch boundary: ordinary
`Exception` subclasses (caught by `except Exception`) versus `SystemExit`
(raised by `sys.exit`, NOT caught by `except Exception`). -/
inductive PyErr where
  | exc
  | exitErr
  deriving DecidableEq

/-- The per-file dict produced by `process_single_file`. -/
structure SingleResult where
  success : Bool
  removed : Nat
  deriving DecidableEq

/-- A file handed to the CLI batch: a PDF document, or a file whose extension
no remover supports. -/
inductive BatchFile (τ : Type) where
  | pdfFile (doc : PDFDoc τ)
  | unsupportedFile (ext : List Char)

/-- `PDFWatermarkRemover.process` of watermark_remover.py (lines 112-196):
this CLI variant opens without any empty-password retry, so a
password-protected document raises `pikepdf.PasswordError`; any internal fault
also raises; otherwise it returns its removed count (no decryption bump in
this variant). -/
def cliPdfRun {τ : Type} (rotTest : τ → Bool) (preview : Bool)
    (kws : List (List Char)) (doc : PDFDoc τ) : Except PyErr Nat :=
  if doc.needsPassword then Except.error PyErr.exc
  else if doc.fault then Except.error PyErr.exc
  else Except.ok (docRemoved rotTest preview kws doc)

/-- `get_remover` (watermark_remover.py lines 307-318): an unsupported
extension calls `sys.exit(1)`, i.e. raises `SystemExit`. -/
def runRemover {τ : Type} (rotTest : τ → Bool) (preview : Bool)
    (kws : List (List Char)) : BatchFile τ → Except PyErr Nat
  | BatchFile.pdfFile doc => cliPdfRun rotTest preview kws doc
  | BatchFile.unsupportedFile _ => Except.error PyErr.exitErr

/-- `process_single_file` (watermark_remover.py lines 329-339): the body runs
under `try ... except Exception`, so an ordinary exception becomes a
`success=False` entry, while `SystemExit` propagates. -/
def processSingleFile {τ : Type} (rotTest : τ → Bool) (preview : Bool)
    (kws : List (List Char)) (f : BatchFile τ) : Except PyErr SingleResult :=
  match runRemover rotTest preview kws f with
  | Except.ok n => Except.ok ⟨true, n⟩
  | Except.error PyErr.exc => Except.ok ⟨false, 0⟩
  | Except.error PyErr.exitErr => Except.error PyErr.exitErr

/-- `process_batch` (watermark_remover.py lines 341-369): the sequential loop
appends one entry per file; an uncaught `SystemExit` aborts the whole process,
so the remaining files are never processed.  Returns the per-file results that
were produced and whether the batch was aborted. -/
def processBatch {τ : Type} (rotTest : τ → Bool) (preview : Bool)
    (kws : List (List Char)) : List (BatchFile τ) → List SingleResult × Bool
  | [] => ([], false)
  | f :: rest =>
    match processSingleFile rotTest preview kws f with
    | Except.ok r =>
      let t := processBatch rotTest preview kws rest
      (r :: t.1, t.2)
    | Except.error _ => ([], true)

/- ============ well-formed content model for the tag rules ============ -/

/-- Segment view of a part's content relative to one tag rule: `keep` segments
are left alone by the rule, `rem attrs` segments are complete target tags
`lit ++ attrs ++ ">"` that the rule deletes. -/
inductive GSeg where
  | keep (s : List Char)
  | rem (attrs : List Char)
  deriving DecidableEq

/-- Render a segment list to the content string for the rule with open
literal `lit`. -/
def gjoin (lit : List Char) : List GSeg → List Char
  | [] => []
  | GSeg.keep s :: rest => s ++ gjoin lit rest
  | GSeg.rem a :: rest => lit ++ a ++ '>' :: gjoin lit rest

/-- The concatenation of the kept segments (the expected output of the rule). -/
def gkeeps : List GSeg → List Char
  | [] => []
  | GSeg.keep s :: rest => s ++ gkeeps rest
  | GSeg.rem _ :: rest => gkeeps rest

/-- Structure view of a settings.xml content: plain-text runs and the two
protection tags targeted by the word settings rules. -/
inductive XPart where
  | txt (s : List Char)
  | dpTag (attrs : List Char)
  | wpTag (attrs : List Char)
  deriving DecidableEq

/-- Render a settings segment list to its content string. -/
def xjoin : List XPart → List Char
  | [] => []
  | XPart.txt s :: rest => s ++ xjoin rest
  | XPart.dpTag a :: rest => docProtLit ++ a ++ '>' :: xjoin rest
  | XPart.wpTag a :: rest => writeProtLit ++ a ++ '>' :: xjoin rest

/-- The plain-text content with both kinds of protection tag removed. -/
def xclean : List XPart → List Char
  | [] => []
  | XPart.txt s :: rest => s ++ xclean rest
  | XPart.dpTag _ :: rest => xclean rest
  | XPart.wpTag _ :: rest => xclean rest

/-- Segment view for the documentProtection pass: writeProtection tags are
ordinary kept text for that rule. -/
def xToDp : List XPart → List GSeg
  | [] => []
  | XPart.txt s :: rest => GSeg.keep s :: xToDp rest
  | XPart.dpTag a :: rest => GSeg.rem a :: xToDp rest
  | XPart.wpTag a :: rest => GSeg.keep (writeProtLit ++ a ++ ['>']) :: xToDp rest

/-- Segment view for the writeProtection pass (run on the output of the
documentProtection pass, in which the dp tags are already gone). -/
def xToWp : List XPart → List GSeg
  | [] => []
  | XPart.txt s :: rest => GSeg.keep s :: xToWp rest
  | XPart.dpTag _ :: rest => xToWp rest
  | XPart.wpTag a :: rest => GSeg.rem a :: xToWp rest

/-- Attribute well-formedness of one settings segment: tag attributes contain
no angle bracket. -/
def xAttrsOk : XPart → Bool
  | XPart.txt _ => true
  | XPart.dpTag a => !a.contains '>' && !a.contains '<'
  | XPart.wpTag a => !a.contains '>' && !a.contains '<'

/-- Well-formed settings content: tag attributes have no angle brackets, and
neither target literal occurs (case-insensitively) in the text that survives
its pass -- i.e. the tags are complete well-delimited elements and their names
do not otherwise appear (not even split across a removed tag) in the
surrounding text. -/
def wfSettings (segs : List XPart) : Bool :=
  segs.all xAttrsOk &&
    !occursCI docProtLit (gkeeps (xToDp segs)) &&
    !occursCI writeProtLit (xclean segs) &&
    !occursCI docProtLit (xclean segs)

/-- Whether a settings segment list contains any protection tag. -/
def hasTag : List XPart → Bool
  | [] => false
  | XPart.txt _ :: rest => hasTag rest
  | XPart.dpTag _ :: _ => true
  | XPart.wpTag _ :: _ => true

/-- Whether a one-rule segment list contains any removable tag. -/
def hasRem : List GSeg → Bool
  | [] => false
  | GSeg.keep _ :: rest => hasRem rest
  | GSeg.rem _ :: _ => true

/-- Segment view of a part's content relative to one staged or slash-closed
tag rule (`<lit[^>]*>.*?st1...stk` or `<lit[^>]*/>`): `hkeep` segments are
left alone by the rule, `hrem attrs body` segments render as
`lit ++ attrs ++ ">" ++ body` and are deleted as a whole by one match (for
the slash form, `attrs` ends in `/` and `body` is empty). -/
inductive HSeg where
  | hkeep (s : List Char)
  | hrem (attrs body : List Char)
  deriving DecidableEq

/-- Render a staged segment list to the content string for open literal
`lit`. -/
def hjoin (lit : List Char) : List HSeg → List Char
  | [] => []
  | HSeg.hkeep s :: rest => s ++ hjoin lit rest
  | HSeg.hrem a b :: rest => lit ++ a ++ '>' :: (b ++ hjoin lit rest)

/-- The concatenation of the kept segments (the expected output of a staged
rule). -/
def hkeeps : List HSeg → List Char
  | [] => []
  | HSeg.hkeep s :: rest => s ++ hkeeps rest
  | HSeg.hrem _ _ :: rest => hkeeps rest

/-- Whether a staged segment list contains any removable element. -/
def hasHRem : List HSeg → Bool
  | [] => false
  | HSeg.hkeep _ :: rest => hasHRem rest
  | HSeg.hrem _ _ :: _ => true

/- ===================== helper lemmas: the matcher ===================== -/

theorem ciStep_self_append (z y : List Char) : ciStep z (z ++ y) = some (Sum.inl y) := by
  induction z with
  | nil => rfl
  | cons a zs ih => simp [ciStep, ih]

theorem ciPrefixMatch_self_append (z y : List Char) :
    ciPrefixMatch z (z ++ y) = some y := by
  simp [ciPrefixMatch, ciStep_self_append]

theorem ciStep_inr_suffix {z t z2 : List Char}
    (h : ciStep z t = some (Sum.inr z2)) : z2 <:+ z ∧ z2 ≠ [] ∧ z2.length + t.length = z.length := by
  induction z generalizing t with
  | nil =>
    cases t <;> simp [ciStep] at h
  | cons a zs ih =>
    cases t with
    | nil =>
      simp [ciStep] at h
      subst h
      exact ⟨List.suffix_rfl, by simp, by simp⟩
    | cons c cs =>
      simp only [ciStep] at h
      split at h
      · obtain ⟨h1, h2, h3⟩ := ih h
        refine ⟨h1.trans (List.suffix_cons a zs), h2, ?_⟩
        simp only [List.length_cons]
        omega
      · exact absurd h (by simp)

theorem ciPrefixMatch_append (z s y : List Char) :
    ciPrefixMatch z (s ++ y) =
      match ciStep z s with
      | some (Sum.inl r) => some (r ++ y)
      | some (Sum.inr z2) => ciPrefixMatch z2 y
      | none => none := by
  induction z generalizing s with
  | nil => cases s <;> simp [ciStep, ciPrefixMatch]
  | cons a zs ih =>
    cases s with
    | nil => simp [ciStep, ciPrefixMatch]
    | cons c cs =>
      by_cases h : a.toLower = c.toLower
      · simp only [List.cons_append, ciPrefixMatch, ciStep, if_pos h]
        have := ih cs
        simp only [ciPrefixMatch] at this
        exact this
      · simp only [List.cons_append, ciPrefixMatch, ciStep, if_neg h]

theorem skipToGt_append {a : List Char} (t : List Char)
    (h : ('>' : Char) ∉ a) : skipToGt (a ++ '>' :: t) = some t := by
  induction a with
  | nil => simp [skipToGt]
  | cons c cs ih =>
    simp only [List.mem_cons, not_or] at h
    simp only [List.cons_append, skipToGt]
    rw [if_neg (fun hc => h.1 hc.symm)]
    exact ih h.2

theorem occursCI_of_isSome {lit s : List Char}
    (h : (ciPrefixMatch lit s).isSome = true) : occursCI lit s = true := by
  cases s with
  | nil => simpa [occursCI] using h
  | cons c cs => simp [occursCI, h]

theorem spanCont (lit' : List Char) :
    ∀ (segs : List GSeg) (z : List Char), z ≠ [] → (∀ ch ∈ z, ch.toLower ≠ '<') →
    (ciPrefixMatch z (gjoin ('<' :: lit') segs)).isSome = true →
    (ciPrefixMatch z (gkeeps segs)).isSome = true := by
  intro segs
  induction segs with
  | nil =>
    intro z hz _ h
    cases z with
    | nil => exact absurd rfl hz
    | cons a as => simp [gjoin, ciPrefixMatch, ciStep] at h
  | cons seg rest ih =>
    intro z hz hlt h
    cases seg with
    | keep s =>
      rw [gjoin] at h
      rw [ciPrefixMatch_append] at h
      rw [gkeeps, ciPrefixMatch_append]
      cases hstep : ciStep z s with
      | none =>
        rw [hstep] at h
        simp at h
      | some v =>
        cases v with
        | inl r => simp
        | inr z2 =>
          rw [hstep] at h
          obtain ⟨hsuf, hne, _⟩ := ciStep_inr_suffix hstep
          exact ih z2 hne (fun ch hch => hlt ch (hsuf.subset hch)) h
    | rem a =>
      cases z with
      | nil => exact absurd rfl hz
      | cons z0 zs =>
        exfalso
        have h0 : z0.toLower ≠ '<' := hlt z0 (by simp)
        have hlow : ('<' : Char).toLower = '<' := by decide
        simp only [gjoin, List.cons_append, List.append_assoc] at h
        simp [ciPrefixMatch, ciStep, hlow, h0] at h

theorem spanTop (lit' : List Char) (hlt : ∀ ch ∈ lit', ch.toLower ≠ '<')
    (c : Char) (s2 : List Char) (segs : List GSeg)
    (h : (ciPrefixMatch ('<' :: lit') ((c :: s2) ++ gjoin ('<' :: lit') segs)).isSome = true) :
    (ciPrefixMatch ('<' :: lit') ((c :: s2) ++ gkeeps segs)).isSome = true := by
  rw [ciPrefixMatch_append] at h ⊢
  cases hstep : ciStep ('<' :: lit') (c :: s2) with
  | none =>
    rw [hstep] at h
    simp at h
  | some v =>
    cases v with
    | inl r => simp
    | inr z2 =>
      rw [hstep] at h
      obtain ⟨hsuf, hne, hlen⟩ := ciStep_inr_suffix hstep
      have hlt2 : z2.length < ('<' :: lit').length := by
        simp only [List.length_cons] at hlen ⊢
        omega
      have hsuf2 : z2 <:+ lit' := by
        rcases List.suffix_cons_iff.mp hsuf with heq | hs
        · exfalso
          rw [heq] at hlt2
          exact lt_irrefl _ hlt2
        · exact hs
      exact spanCont lit' segs z2 hne (fun ch hch => hlt ch (hsuf2.subset hch)) h

theorem subRuleGF_gjoin (lit' : List Char) (hlt : ∀ ch ∈ lit', ch.toLower ≠ '<') :
    ∀ (n fuel : Nat) (segs : List GSeg), fuel + segs.length ≤ n →
    (∀ a, GSeg.rem a ∈ segs → ('>' : Char) ∉ a) →
    occursCI ('<' :: lit') (gkeeps segs) = false →
    (gjoin ('<' :: lit') segs).length ≤ fuel →
    subRuleGF (tryMatchTag ('<' :: lit')) fuel (gjoin ('<' :: lit') segs) = gkeeps segs := by
  intro n
  induction n using Nat.strong_induction_on with
  | _ n ih =>
    intro fuel segs hn hA hK hfuel
    cases segs with
    | nil =>
      cases fuel <;> simp [gjoin, gkeeps, subRuleGF]
    | cons seg rest =>
      cases seg with
      | keep s =>
        cases s with
        | nil =>
          have h1 : gjoin ('<' :: lit') (GSeg.keep [] :: rest) = gjoin ('<' :: lit') rest := by
            simp [gjoin]
          have h2 : gkeeps (GSeg.keep [] :: rest) = gkeeps rest := by simp [gkeeps]
          rw [h1, h2]
          have hn2 : fuel + rest.length ≤ n - 1 := by
            simp only [List.length_cons] at hn
            omega
          have hnlt : n - 1 < n := by
            simp only [List.length_cons] at hn
            omega
          refine ih (n - 1) hnlt fuel rest hn2 (fun a ha => hA a (by simp [ha])) ?_ ?_
          · rw [h2] at hK
            exact hK
          · rw [h1] at hfuel
            exact hfuel
        | cons c s2 =>
          have hjoin : gjoin ('<' :: lit') (GSeg.keep (c :: s2) :: rest) =
              c :: (s2 ++ gjoin ('<' :: lit') rest) := by simp [gjoin]
          have hkeep : gkeeps (GSeg.keep (c :: s2) :: rest) =
              c :: (s2 ++ gkeeps rest) := by simp [gkeeps]
          cases fuel with
          | zero =>
            exfalso
            rw [hjoin] at hfuel
            simp at hfuel
          | succ fu =>
            rw [hjoin, hkeep]
            have hKc : occursCI ('<' :: lit') (c :: (s2 ++ gkeeps rest)) = false := by
              rw [hkeep] at hK
              exact hK
            have hnone : tryMatchTag ('<' :: lit') (c :: (s2 ++ gjoin ('<' :: lit') rest)) = none := by
              cases hcp : ciPrefixMatch ('<' :: lit') (c :: (s2 ++ gjoin ('<' :: lit') rest)) with
              | none => simp [tryMatchTag, hcp]
              | some r =>
                exfalso
                have hs : (ciPrefixMatch ('<' :: lit') ((c :: s2) ++ gkeeps rest)).isSome = true := by
                  refine spanTop lit' hlt c s2 rest ?_
                  simp [hcp]
                have hocc : occursCI ('<' :: lit') ((c :: s2) ++ gkeeps rest) = true :=
                  occursCI_of_isSome hs
                rw [List.cons_append] at hocc
                rw [hocc] at hKc
                exact absurd hKc (by decide)
            simp only [subRuleGF, hnone]
            have hn2 : fu + (GSeg.keep s2 :: rest).length ≤ n - 1 := by
              simp only [List.length_cons] at hn ⊢
              omega
            have hnlt : n - 1 < n := by
              simp only [List.length_cons] at hn
              omega
            have hrest : subRuleGF (tryMatchTag ('<' :: lit')) fu
                (gjoin ('<' :: lit') (GSeg.keep s2 :: rest)) = gkeeps (GSeg.keep s2 :: rest) := by
              refine ih (n - 1) hnlt fu (GSeg.keep s2 :: rest) hn2
                (fun a ha => hA a (by
                  simp only [List.mem_cons] at ha ⊢
                  rcases ha with h | h
                  · exact absurd h (by simp)
                  · exact Or.inr h)) ?_ ?_
              · simp only [gkeeps]
                have h2 : ciPrefixMatch ('<' :: lit') (c :: (s2 ++ gkeeps rest)) = none ∧
                    occursCI ('<' :: lit') (s2 ++ gkeeps rest) = false := by
                  simpa [occursCI] using hKc
                exact h2.2
              · simp only [gjoin]
                rw [hjoin] at hfuel
                simp only [List.length_cons] at hfuel
                omega
            simp only [gjoin, gkeeps] at hrest
            rw [hrest]
      | rem a =>
        have hA0 : ('>' : Char) ∉ a := hA a (by simp)
        cases fuel with
        | zero =>
          exfalso
          simp [gjoin] at hfuel
        | succ fu =>
          have hGJ : gjoin ('<' :: lit') (GSeg.rem a :: rest) =
              ('<' :: lit') ++ (a ++ '>' :: gjoin ('<' :: lit') rest) := by
            simp [gjoin, List.append_assoc]
          have hmatch : tryMatchTag ('<' :: lit') (gjoin ('<' :: lit') (GSeg.rem a :: rest)) =
              some (gjoin ('<' :: lit') rest) := by
            rw [hGJ, tryMatchTag, ciPrefixMatch_self_append]
            simp [skipToGt_append _ hA0]
          have hjoin : gjoin ('<' :: lit') (GSeg.rem a :: rest) =
              '<' :: (lit' ++ (a ++ '>' :: gjoin ('<' :: lit') rest)) := by
            simp [gjoin, List.append_assoc]
          rw [hjoin] at hmatch
          rw [hjoin]
          simp only [subRuleGF, hmatch]
          have hn2 : fu + rest.length ≤ n - 1 := by
            simp only [List.length_cons] at hn
            omega
          have hnlt : n - 1 < n := by
            simp only [List.length_cons] at hn
            omega
          have hfu : (gjoin ('<' :: lit') rest).length ≤ fu := by
            rw [hjoin] at hfuel
            simp only [List.length_cons, List.length_append] at hfuel
            omega
          have := ih (n - 1) hnlt fu rest hn2 (fun b hb => hA b (by simp [hb]))
            (by simpa [gkeeps] using hK) hfu
          rw [this]
          simp [gkeeps]

theorem subRule_gjoin (lit lit' : List Char) (hl : lit = '<' :: lit')
    (hlt : ∀ ch ∈ lit', ch.toLower ≠ '<') (segs : List GSeg)
    (hA : ∀ a, GSeg.rem a ∈ segs → ('>' : Char) ∉ a)
    (hK : occursCI lit (gkeeps segs) = false) :
    subRule lit (gjoin lit segs) = gkeeps segs := by
  subst hl
  show subRuleGF _ (gjoin ('<' :: lit') segs).length _ = _
  exact subRuleGF_gjoin lit' hlt ((gjoin ('<' :: lit') segs).length + segs.length)
    (gjoin ('<' :: lit') segs).length segs le_rfl hA hK le_rfl

theorem subRuleGF_id_of_not_occurs (lit : List Char) :
    ∀ (fuel : Nat) (s : List Char), occursCI lit s = false →
    subRuleGF (tryMatchTag lit) fuel s = s := by
  intro fuel
  induction fuel with
  | zero => intro s _; rfl
  | succ fu ih =>
    intro s h
    cases s with
    | nil => rfl
    | cons c cs =>
      have hor : ciPrefixMatch lit (c :: cs) = none ∧ occursCI lit cs = false := by
        simpa [occursCI] using h
      have hm : tryMatchTag lit (c :: cs) = none := by
        simp [tryMatchTag, hor.1]
      simp only [subRuleGF, hm]
      rw [ih cs hor.2]

theorem subRule_id_of_not_occurs (lit s : List Char) (h : occursCI lit s = false) :
    subRule lit s = s :=
  subRuleGF_id_of_not_occurs lit s.length s h

/- ============ settings-content lemmas ============ -/

theorem xjoin_eq_gjoin_dp (segs : List XPart) :
    xjoin segs = gjoin docProtLit (xToDp segs) := by
  induction segs with
  | nil => rfl
  | cons seg rest ih =>
    cases seg with
    | txt s => simp [xjoin, xToDp, gjoin, ih]
    | dpTag a => simp [xjoin, xToDp, gjoin, ih]
    | wpTag a => simp [xjoin, xToDp, gjoin, ih, List.append_assoc]

theorem gkeeps_xToDp (segs : List XPart) :
    gkeeps (xToDp segs) = gjoin writeProtLit (xToWp segs) := by
  induction segs with
  | nil => rfl
  | cons seg rest ih =>
    cases seg with
    | txt s => simp [xToDp, xToWp, gkeeps, gjoin, ih]
    | dpTag a => simp [xToDp, xToWp, gkeeps, gjoin, ih]
    | wpTag a => simp [xToDp, xToWp, gkeeps, gjoin, ih, List.append_assoc]

theorem gkeeps_xToWp (segs : List XPart) :
    gkeeps (xToWp segs) = xclean segs := by
  induction segs with
  | nil => rfl
  | cons seg rest ih =>
    cases seg with
    | txt s => simp [xToWp, gkeeps, xclean, ih]
    | dpTag a => simp [xToWp, gkeeps, xclean, ih]
    | wpTag a => simp [xToWp, gkeeps, xclean, ih]

theorem xToDp_rem_attrs {segs : List XPart} (hA : segs.all xAttrsOk = true) :
    ∀ a, GSeg.rem a ∈ xToDp segs → ('>' : Char) ∉ a := by
  induction segs with
  | nil => intro a ha; simp [xToDp] at ha
  | cons seg rest ih =>
    have hA2 : xAttrsOk seg = true ∧ rest.all xAttrsOk = true := by
      simpa [List.all_cons] using hA
    intro a ha
    cases seg with
    | txt s =>
      simp only [xToDp, List.mem_cons] at ha
      rcases ha with h | h
      · exact absurd h (by simp)
      · exact ih hA2.2 a h
    | dpTag b =>
      simp only [xToDp, List.mem_cons] at ha
      rcases ha with h | h
      · cases h
        have := hA2.1
        simp only [xAttrsOk, Bool.and_eq_true, Bool.not_eq_true'] at this
        intro hmem
        have := this.1
        rw [List.contains_eq_any_beq] at this
        simp at this
        exact this '>' hmem rfl
      · exact ih hA2.2 a h
    | wpTag b =>
      simp only [xToDp, List.mem_cons] at ha
      rcases ha with h | h
      · exact absurd h (by simp)
      · exact ih hA2.2 a h

theorem xToWp_rem_attrs {segs : List XPart} (hA : segs.all xAttrsOk = true) :
    ∀ a, GSeg.rem a ∈ xToWp segs → ('>' : Char) ∉ a := by
  induction segs with
  | nil => intro a ha; simp [xToWp] at ha
  | cons seg rest ih =>
    have hA2 : xAttrsOk seg = true ∧ rest.all xAttrsOk = true := by
      simpa [List.all_cons] using hA
    intro a ha
    cases seg with
    | txt s =>
      simp only [xToWp, List.mem_cons] at ha
      rcases ha with h | h
      · exact absurd h (by simp)
      · exact ih hA2.2 a h
    | dpTag b =>
      simp only [xToWp] at ha
      exact ih hA2.2 a ha
    | wpTag b =>
      simp only [xToWp, List.mem_cons] at ha
      rcases ha with h | h
      · cases h
        have := hA2.1
        simp only [xAttrsOk, Bool.and_eq_true, Bool.not_eq_true'] at this
        intro hmem
        have := this.1
        rw [List.contains_eq_any_beq] at this
        simp at this
        exact this '>' hmem rfl
      · exact ih hA2.2 a h

theorem xjoin_of_not_hasTag {segs : List XPart} (h : hasTag segs = false) :
    xjoin segs = xclean segs := by
  induction segs with
  | nil => rfl
  | cons seg rest ih =>
    cases seg with
    | txt s =>
      simp only [hasTag] at h
      simp [xjoin, xclean, ih h]
    | dpTag a => simp [hasTag] at h
    | wpTag a => simp [hasTag] at h

theorem xclean_length_le (segs : List XPart) :
    (xclean segs).length ≤ (xjoin segs).length := by
  induction segs with
  | nil => simp [xjoin, xclean]
  | cons seg rest ih =>
    cases seg with
    | txt s =>
      simp only [xjoin, xclean, List.length_append]
      omega
    | dpTag a =>
      simp only [xjoin, xclean, List.length_append, List.length_cons]
      omega
    | wpTag a =>
      simp only [xjoin, xclean, List.length_append, List.length_cons]
      omega

theorem xclean_length_lt {segs : List XPart} (h : hasTag segs = true) :
    (xclean segs).length < (xjoin segs).length := by
  induction segs with
  | nil => simp [hasTag] at h
  | cons seg rest ih =>
    cases seg with
    | txt s =>
      simp only [hasTag] at h
      have := ih h
      simp only [xjoin, xclean, List.length_append]
      omega
    | dpTag a =>
      have := xclean_length_le rest
      simp only [xjoin, xclean, List.length_append, List.length_cons]
      omega
    | wpTag a =>
      have := xclean_length_le rest
      simp only [xjoin, xclean, List.length_append, List.length_cons]
      omega

theorem processSettings_wf {segs : List XPart} (hwf : wfSettings segs = true) :
    processSettings (xjoin segs) = (xclean segs, if hasTag segs then 1 else 0) := by
  have hw := hwf
  simp only [wfSettings, Bool.and_eq_true, Bool.not_eq_true'] at hw
  obtain ⟨⟨⟨hA, hK1⟩, hK2⟩, _⟩ := hw
  have hdp : subRule docProtLit (xjoin segs) = gkeeps (xToDp segs) := by
    rw [xjoin_eq_gjoin_dp]
    exact subRule_gjoin docProtLit ("w:documentProtection".toList) (by decide)
      (by decide) (xToDp segs) (xToDp_rem_attrs hA) hK1
  have hwp : subRule writeProtLit (gkeeps (xToDp segs)) = xclean segs := by
    rw [gkeeps_xToDp]
    rw [← gkeeps_xToWp segs] at hK2 ⊢
    exact subRule_gjoin writeProtLit ("w:writeProtection".toList) (by decide)
      (by decide) (xToWp segs) (xToWp_rem_attrs hA) hK2
  show (subRule writeProtLit (subRule docProtLit (xjoin segs)),
    if subRule writeProtLit (subRule docProtLit (xjoin segs)) = xjoin segs then 0 else 1) = _
  rw [hdp, hwp]
  by_cases ht : hasTag segs
  · have hne : xclean segs ≠ xjoin segs := by
      intro hEq
      have := xclean_length_lt ht
      rw [hEq] at this
      exact lt_irrefl _ this
    simp [ht, hne]
  · have hb : hasTag segs = false := by
      revert ht
      cases hasTag segs <;> simp
    rw [xjoin_of_not_hasTag hb]
    simp [hb]

theorem processSettings_clean_id {segs : List XPart} (hwf : wfSettings segs = true) :
    processSettings (xclean segs) = (xclean segs, 0) := by
  have hw := hwf
  simp only [wfSettings, Bool.and_eq_true, Bool.not_eq_true'] at hw
  obtain ⟨⟨_, hK2⟩, hK3⟩ := hw
  have h1 : subRule docProtLit (xclean segs) = xclean segs :=
    subRule_id_of_not_occurs _ _ hK3
  have h2 : subRule writeProtLit (xclean segs) = xclean segs :=
    subRule_id_of_not_occurs _ _ hK2
  show (subRule writeProtLit (subRule docProtLit (xclean segs)),
    if subRule writeProtLit (subRule docProtLit (xclean segs)) = xclean segs then 0 else 1) = _
  rw [h1, h2]
  simp

/- ============ rotation geometry lemmas ============ -/

theorem tan_pi_div_36_le : Real.tan (Real.pi / 36) ≤ 0.9 := by
  have hpi := Real.pi_pos
  have hx0 : (0 : ℝ) < Real.pi / 36 := by linarith
  have hxlt : Real.pi / 36 < Real.pi / 2 := by linarith
  have hcos_pos : 0 < Real.cos (Real.pi / 36) :=
    Real.cos_pos_of_mem_Ioo ⟨by linarith, hxlt⟩
  have hsin : Real.sin (Real.pi / 36) ≤ Real.pi / 36 := (Real.sin_lt hx0).le
  have hxle : Real.pi / 36 ≤ 0.0875 := by
    have := Real.pi_lt_d2
    norm_num
    linarith
  have hc4 : Real.cos (Real.pi / 4) ≤ Real.cos (Real.pi / 36) :=
    Real.cos_le_cos_of_nonneg_of_le_pi (by linarith) (by linarith) (by linarith)
  have hsqrt : (1.4 : ℝ) ≤ Real.sqrt 2 := by
    nlinarith [Real.sq_sqrt (by norm_num : (0:ℝ) ≤ 2), Real.sqrt_nonneg 2]
  have hcos_ge : (0.7 : ℝ) ≤ Real.cos (Real.pi / 36) := by
    rw [Real.cos_pi_div_four] at hc4
    nlinarith
  rw [Real.tan_eq_sin_div_cos, div_le_iff₀ hcos_pos]
  nlinarith

theorem arctan_09_lb : Real.pi / 36 ≤ Real.arctan 0.9 := by
  have hpi := Real.pi_pos
  have h := Real.arctan_strictMono.monotone tan_pi_div_36_le
  rwa [Real.arctan_tan (by linarith) (by linarith)] at h

theorem pdfAngle_09_bounds : 5 ≤ pdfAngle 0.9 ∧ pdfAngle 0.9 ≤ 85 := by
  have hpi := Real.pi_pos
  have hnn : (0 : ℝ) ≤ Real.arctan 0.9 := by
    have := arctan_09_lb
    linarith
  have hfrac : (0 : ℝ) < 180 / Real.pi := by positivity
  have habs : pdfAngle 0.9 = Real.arctan 0.9 * (180 / Real.pi) := by
    rw [pdfAngle, abs_of_nonneg (by positivity)]
  constructor
  · rw [habs]
    have h5 : (Real.pi / 36) * (180 / Real.pi) = 5 := by
      field_simp
      ring
    calc (5 : ℝ) = (Real.pi / 36) * (180 / Real.pi) := h5.symm
      _ ≤ Real.arctan 0.9 * (180 / Real.pi) :=
        mul_le_mul_of_nonneg_right arctan_09_lb hfrac.le
  · rw [habs]
    have hub : Real.arctan 0.9 ≤ Real.pi / 4 := by
      have := Real.arctan_strictMono.monotone (by norm_num : (0.9 : ℝ) ≤ 1)
      rwa [Real.arctan_one] at this
    have h45 : (Real.pi / 4) * (180 / Real.pi) = 45 := by
      field_simp
      ring
    calc Real.arctan 0.9 * (180 / Real.pi) ≤ (Real.pi / 4) * (180 / Real.pi) :=
        mul_le_mul_of_nonneg_right hub hfrac.le
      _ = 45 := h45
      _ ≤ 85 := by norm_num

theorem rotCond_default_09 : rotCond defaultPDFConfig 0.9 (-0.9) := by
  refine ⟨Or.inl ?_, pdfAngle_09_bounds.1, pdfAngle_09_bounds.2⟩
  show (0.1 : ℝ) < |(0.9 : ℝ)|
  rw [abs_of_pos (by norm_num)]
  norm_num

theorem rotCond_not_small : ¬ rotCond defaultPDFConfig 0.01 0.01 := by
  rintro ⟨h1 | h1, -, -⟩ <;>
  · have hth : defaultPDFConfig.rotationThreshold = 0.1 := rfl
    rw [hth, show |(0.01 : ℝ)| = 0.01 from abs_of_pos (by norm_num)] at h1
    norm_num at h1
  
theorem rotCond_not_zero : ¬ rotCond defaultPDFConfig 0 0 := by
  rintro ⟨h1 | h1, -, -⟩ <;> simp [defaultPDFConfig] at h1 <;> norm_num at h1

theorem pdfAngle_two : pdfAngle (Real.tan (Real.pi / 90)) = 2 := by
  have hpi := Real.pi_pos
  rw [pdfAngle, Real.arctan_tan (by linarith) (by linarith)]
  have h2 : Real.pi / 90 * (180 / Real.pi) = 2 := by
    field_simp
    ring
  rw [h2]
  norm_num

theorem rotCond_not_of_angle_two (b c : ℝ) (hangle : pdfAngle b = 2) :
    ¬ rotCond defaultPDFConfig b c := by
  rintro ⟨-, h5, -⟩
  rw [hangle] at h5
  have : defaultPDFConfig.angleMin = 5 := rfl
  rw [this] at h5
  norm_num at h5

/- ============ filter_watermarks lemmas ============ -/

theorem kwLoop_preview_no_empty (content : List Char) (kws : List (List Char)) :
    (kwLoop true content kws).2.1 = false := by
  induction kws with
  | nil => rfl
  | cons kw rest ih =>
    by_cases h : containsSub kw content = true
    · simp [kwLoop, h, ih]
    · simp only [kwLoop]
      rw [if_neg h]
      exact ih

theorem kwLoop_preview_mem {kw : List Char} {kws : List (List Char)}
    {content : List Char} (hmem : kw ∈ kws) (hc : containsSub kw content = true) :
    kw ∈ (kwLoop true content kws).2.2 := by
  induction kws with
  | nil => cases hmem
  | cons k rest ih =>
    rcases List.mem_cons.mp hmem with heq | htail
    · subst heq
      simp [kwLoop, hc]
    · by_cases h : containsSub k content = true
      · simp only [kwLoop, h, if_pos, if_true]
        simp only [List.mem_cons]
        exact Or.inr (ih htail)
      · simp only [kwLoop]
        rw [if_neg h]
        exact ih htail

theorem kwLoop_apply_eq (content : List Char) (kws : List (List Char)) :
    kwLoop false content kws =
      match kws.find? (fun kw => containsSub kw content) with
      | some kw => (1, true, [kw])
      | none => (0, false, []) := by
  induction kws with
  | nil => rfl
  | cons k rest ih =>
    by_cases h : containsSub k content = true
    · simp [kwLoop, h, List.find?]
    · have hb : containsSub k content = false := by
        revert h
        cases containsSub k content <;> simp
      simp [kwLoop, hb, List.find?, ih]

theorem filterBlock_scan_keyword {τ : Type} (rotTest : τ → Bool)
    (kws : List (List Char)) (bl : TextBlock τ) (kw : List Char)
    (hmem : kw ∈ kws) (hc : containsSub kw bl.content = true) :
    Detection.keyword kw ∈ (filterBlock rotTest true kws bl).dets := by
  have hk := kwLoop_preview_mem hmem hc
  cases hh : bl.tms.head? with
  | none =>
    simp only [filterBlock, hh, kwStage]
    exact List.mem_map_of_mem Detection.keyword hk
  | some tm =>
    by_cases hr : rotTest tm = true
    · simp only [filterBlock, hh, hr, if_true]
      simp only [List.mem_cons]
      exact Or.inr (List.mem_map_of_mem Detection.keyword hk)
    · have hrf : rotTest tm = false := by
        revert hr
        cases rotTest tm <;> simp
      simp only [filterBlock, hh, hrf, Bool.false_eq_true, if_false, kwStage]
      exact List.mem_map_of_mem Detection.keyword hk

theorem filterBlock_apply_rotated {τ : Type} (rotTest : τ → Bool)
    (kws : List (List Char)) (bl : TextBlock τ) (tm : τ)
    (hh : bl.tms.head? = some tm) (hr : rotTest tm = true) :
    filterBlock rotTest false kws bl = ⟨1, none, [Detection.rotated tm]⟩ := by
  simp [filterBlock, hh, hr]

theorem filterBlock_apply_keyword {τ : Type} (rotTest : τ → Bool)
    (kws : List (List Char)) (bl : TextBlock τ) (kw : List Char)
    (hnr : ∀ tm, bl.tms.head? = some tm → rotTest tm = false)
    (hf : kws.find? (fun k => containsSub k bl.content) = some kw) :
    filterBlock rotTest false kws bl = ⟨1, none, [Detection.keyword kw]⟩ := by
  have hstage : kwStage false kws bl = ⟨1, none, [Detection.keyword kw]⟩ := by
    simp [kwStage, kwLoop_apply_eq, hf]
  cases hh : bl.tms.head? with
  | none => simp [filterBlock, hh, hstage]
  | some tm =>
    have := hnr tm hh
    simp [filterBlock, hh, this, hstage]

theorem filterBlock_first_tm_only {τ : Type} (rotTest : τ → Bool)
    (preview : Bool) (kws : List (List Char)) (tm : τ) (rest : List τ)
    (content : List Char) :
    (filterBlock rotTest preview kws ⟨tm :: rest, content⟩).removed =
      (filterBlock rotTest preview kws ⟨[tm], content⟩).removed ∧
    (filterBlock rotTest preview kws ⟨tm :: rest, content⟩).dets =
      (filterBlock rotTest preview kws ⟨[tm], content⟩).dets := by
  simp only [filterBlock, List.head?, kwStage]
  by_cases hr : rotTest tm = true <;> by_cases hp : preview = true <;>
    simp [hr, hp]

/- ===================== claim theorems ===================== -/

/-- C1: with the default configuration (rotation threshold 0.1, angle band
[5, 85] degrees), a PDF text-object block is classified as rotated text
exactly when its (first-matched) text matrix has an off-diagonal component of
absolute value strictly above the threshold AND the angle
|atan2(b, 1)| in degrees lies in the inclusive band; in particular b=0.9,
c=-0.9 is classified, b=0.01, c=0.01 is not, and any shear yielding an angle
of 2 degrees is not, however large the other shear component is. -/
theorem C1_rotation_classification :
    (∀ bl : TextBlock TmReal, blockRotatedProp defaultPDFConfig bl ↔
      ∃ tm, bl.tms.head? = some tm ∧
        (((0.1 : ℝ) < |tm.b| ∨ (0.1 : ℝ) < |tm.c|) ∧
          5 ≤ pdfAngle tm.b ∧ pdfAngle tm.b ≤ 85)) ∧
    rotCond defaultPDFConfig 0.9 (-0.9) ∧
    ¬ rotCond defaultPDFConfig 0.01 0.01 ∧
    (∀ b c : ℝ, pdfAngle b = 2 → ¬ rotCond defaultPDFConfig b c) := by
  refine ⟨?_, rotCond_default_09, rotCond_not_small, rotCond_not_of_angle_two⟩
  intro bl
  cases hh : bl.tms.head? with
  | none => simp [blockRotatedProp, hh]
  | some tm =>
    simp only [blockRotatedProp, hh]
    constructor
    · intro h
      exact ⟨tm, rfl, h⟩
    · rintro ⟨tm2, heq, h⟩
      rw [Option.some_inj] at heq
      subst heq
      exact h

/-- Witness for C1 at concrete inputs: the b=0.9, c=-0.9 block is classified
(via the characterization), and the angle-2-degree shear b = tan(pi/90) with
c = 0.9 above threshold is rejected. -/
theorem C1_rotation_classification_witness :
    blockRotatedProp defaultPDFConfig ⟨[⟨1, 0.9, -0.9, 1, 0, 0⟩], []⟩ ∧
    ¬ rotCond defaultPDFConfig (Real.tan (Real.pi / 90)) 0.9 := by
  constructor
  · exact (C1_rotation_classification.1 ⟨[⟨1, 0.9, -0.9, 1, 0, 0⟩], []⟩).mpr
      ⟨⟨1, 0.9, -0.9, 1, 0, 0⟩, rfl, C1_rotation_classification.2.1⟩
  · exact C1_rotation_classification.2.2.2 _ _ pdfAngle_two

/-- C5 counterexample: a block with two Tm instructions whose FIRST matrix is
strongly sheared (b=0.9, c=-0.9) and whose LAST matrix is the identity.  The
code (re.search, i.e. the first match) classifies it as rotated text, while
the claim's most-recent (last) Tm reading does not: the classification is not
computed from the last Tm. -/
theorem C5_counterexample :
    blockRotatedProp defaultPDFConfig
      ⟨[⟨1, 0.9, -0.9, 1, 0, 0⟩, ⟨1, 0, 0, 1, 0, 0⟩], []⟩ ∧
    ¬ blockRotatedSpecLast defaultPDFConfig
      ⟨[⟨1, 0.9, -0.9, 1, 0, 0⟩, ⟨1, 0, 0, 1, 0, 0⟩], []⟩ := by
  constructor
  · show rotCond defaultPDFConfig 0.9 (-0.9)
    exact rotCond_default_09
  · intro h
    have heval : ([(⟨1, 0.9, -0.9, 1, 0, 0⟩ : TmReal), ⟨1, 0, 0, 1, 0, 0⟩]).getLast? =
        some ⟨1, 0, 0, 1, 0, 0⟩ := rfl
    rw [blockRotatedSpecLast] at h
    rw [heval] at h
    exact rotCond_not_zero h

/-- C5 amended: the rotation classification of a block is computed from the
FIRST (earliest) Tm instruction of the block, not the most recent (last) one;
the block filter's removal count and detections depend only on that first Tm. -/
theorem C5_amended_first_tm :
    (∀ (cfg : PDFConfig) (bl : TextBlock TmReal) (tm : TmReal) (rest : List TmReal),
      bl.tms = tm :: rest → (blockRotatedProp cfg bl ↔ rotCond cfg tm.b tm.c)) ∧
    (∀ (τ : Type) (rotTest : τ → Bool) (preview : Bool) (kws : List (List Char))
      (tm : τ) (rest : List τ) (content : List Char),
      (filterBlock rotTest preview kws ⟨tm :: rest, content⟩).removed =
        (filterBlock rotTest preview kws ⟨[tm], content⟩).removed ∧
      (filterBlock rotTest preview kws ⟨tm :: rest, content⟩).dets =
        (filterBlock rotTest preview kws ⟨[tm], content⟩).dets) := by
  constructor
  · intro cfg bl tm rest htms
    have hh : bl.tms.head? = some tm := by rw [htms]; rfl
    simp [blockRotatedProp, hh]
  · intro τ rotTest preview kws tm rest content
    exact filterBlock_first_tm_only rotTest preview kws tm rest content

/-- Witness for C5's amended claim at a concrete block. -/
theorem C5_amended_first_tm_witness :
    blockRotatedProp defaultPDFConfig
      ⟨[⟨1, 0.9, -0.9, 1, 0, 0⟩, ⟨1, 0.2, 0, 1, 0, 0⟩], []⟩ := by
  refine (C5_amended_first_tm.1 defaultPDFConfig _ ⟨1, 0.9, -0.9, 1, 0, 0⟩
    [⟨1, 0.2, 0, 1, 0, 0⟩] rfl).mpr ?_
  exact rotCond_default_09


/-- Evaluation of `pdfProcess` for a document that opens (directly or via the
empty-password retry) and hits no internal fault. -/
theorem pdfProcess_open_eq {τ : Type} (rotTest : τ → Bool) (preview : Bool)
    (kws : List (List Char)) (outPath : List Char) (doc : PDFDoc τ)
    (hf : doc.fault = false)
    (hpw : doc.needsPassword = true → doc.emptyPwWorks = true) :
    pdfProcess rotTest preview kws outPath doc =
      ⟨⟨true, if preview then none else some outPath, Msg.pdfDone,
          (if doc.needsPassword then 1 else 0) + docRemoved rotTest preview kws doc,
          doc.pages.length⟩,
        if preview = false ∧
            0 < (if doc.needsPassword then 1 else 0) + docRemoved rotTest preview kws doc
          then some (if preview then doc else applyDoc rotTest kws doc) else none,
        if preview then doc else applyDoc rotTest kws doc⟩ := by
  have hcond : ¬(doc.needsPassword = true ∧ doc.emptyPwWorks = false) := by
    rintro ⟨h1, h2⟩
    rw [hpw h1] at h2
    cases h2
  rw [pdfProcess, if_neg hcond, if_neg (by rw [hf]; exact Bool.false_ne_true)]

/-- Evaluation of `pptxProcess` for a ZIP input. -/
theorem pptxProcess_zip_eq (cfg : PPTXConfig) (preview : Bool)
    (outPath : List Char) (d : PPTXDoc) (hzip : d.isZip = true) :
    pptxProcess cfg preview outPath d =
      ⟨⟨true, if preview then none else some outPath, Msg.pptxDone,
          (if d.presProtected then 1 else 0) + pptxWmCount cfg d, d.slides.length⟩,
        if preview = false ∧ 0 < (if d.presProtected then 1 else 0) + pptxWmCount cfg d
          then some ⟨true, false, if preview then d.slides else d.slides.map (slideApply cfg)⟩
          else none⟩ := by
  rw [pptxProcess, if_neg (by simp [hzip])]

/-- C2 counterexample: an empty-password-protected PDF with no text blocks,
processed in scan mode, reports removed_count = 1 -- the decryption bump of
pdf_processor.py line 53 -- although the number of matching watermark
artifacts is 0.  Scan mode therefore does not always report the number of
matching artifacts. -/
theorem C2_counterexample :
    (pdfProcess (fun _ : Unit => false) true [] ".out".toList
      ⟨true, true, false, []⟩).res.removedCount = 1 ∧
    docRemoved (fun _ : Unit => false) true [] ⟨true, true, false, []⟩ = 0 := by
  decide

/-- C2 amended: in scan (preview) mode, for every document that opens
(directly or via the empty-password retry) the run reports the matching
artifact count PLUS one when the empty-password decryption occurred; the
result's output path is None, no output file is written, and the in-memory
document (hence the input file, which the processor never writes) is left
unchanged.  For PPTX, scan mode likewise writes nothing, reports no output
path, and counts the slide watermarks plus one for a presentation-protection
match. -/
theorem C2_amended_scan :
    (∀ (τ : Type) (rotTest : τ → Bool) (kws : List (List Char))
      (outPath : List Char) (doc : PDFDoc τ),
      doc.fault = false → (doc.needsPassword = true → doc.emptyPwWorks = true) →
      (pdfProcess rotTest true kws outPath doc).res.outputPath = none ∧
      (pdfProcess rotTest true kws outPath doc).savedDoc = none ∧
      (pdfProcess rotTest true kws outPath doc).memDoc = doc ∧
      (pdfProcess rotTest true kws outPath doc).res.removedCount =
        (if doc.needsPassword then 1 else 0) + docRemoved rotTest true kws doc) ∧
    (∀ (cfg : PPTXConfig) (outPath : List Char) (d : PPTXDoc), d.isZip = true →
      (pptxProcess cfg true outPath d).res.outputPath = none ∧
      (pptxProcess cfg true outPath d).savedDoc = none ∧
      (pptxProcess cfg true outPath d).res.removedCount =
        (if d.presProtected then 1 else 0) + pptxWmCount cfg d) := by
  constructor
  · intro τ rotTest kws outPath doc hf hpw
    rw [pdfProcess_open_eq rotTest true kws outPath doc hf hpw]
    refine ⟨rfl, ?_, rfl, rfl⟩
    dsimp only
    rw [if_neg]
    rintro ⟨h, -⟩
    cases h
  · intro cfg outPath d hzip
    rw [pptxProcess_zip_eq cfg true outPath d hzip]
    refine ⟨rfl, ?_, rfl⟩
    dsimp only
    rw [if_neg]
    rintro ⟨h, -⟩
    cases h

/-- Witness for C2's amended claim at concrete documents. -/
theorem C2_amended_scan_witness :
    (pdfProcess (fun _ : Unit => false) true [] ".o".toList
      ⟨true, true, false, []⟩).res.outputPath = none ∧
    (pptxProcess defaultPPTXConfig true ".o".toList ⟨true, true, []⟩).savedDoc = none := by
  exact ⟨(C2_amended_scan.1 Unit (fun _ => false) [] ".o".toList
      ⟨true, true, false, []⟩ rfl (fun _ => rfl)).1,
    (C2_amended_scan.2 defaultPPTXConfig ".o".toList ⟨true, true, []⟩ rfl).2.1⟩

/-- C7 counterexample: (a) apply mode on an unencrypted PDF with zero
artifacts writes NO output file at all (savedDoc = none) while the result
still reports the output path -- the input is not surfaced as a copied output
file; (b) apply mode on an empty-password PDF with zero content removals DOES
save (the counter is 1 from the decryption), so "saved iff at least one
removal occurred" also fails as stated. -/
theorem C7_counterexample :
    ((pdfProcess (fun _ : Unit => false) false [] ".out".toList
        ⟨false, false, false, []⟩).savedDoc = none ∧
      (pdfProcess (fun _ : Unit => false) false [] ".out".toList
        ⟨false, false, false, []⟩).res.outputPath = some ".out".toList ∧
      (pdfProcess (fun _ : Unit => false) false [] ".out".toList
        ⟨false, false, false, []⟩).res.removedCount = 0) ∧
    ((pdfProcess (fun _ : Unit => false) false [] ".out".toList
        ⟨true, true, false, []⟩).savedDoc.isSome = true ∧
      docRemoved (fun _ : Unit => false) false [] ⟨true, true, false, []⟩ = 0) := by
  decide

/-- C7 amended: in apply mode the save/repack step is skipped exactly when the
removed counter is zero (for PDF that counter includes the decryption bump);
in the zero case NO output file is produced, although the returned result
still reports the output path.  The PPTX repack obeys the same counter
condition. -/
theorem C7_amended_save_conditions :
    (∀ (τ : Type) (rotTest : τ → Bool) (kws : List (List Char))
      (outPath : List Char) (doc : PDFDoc τ),
      doc.fault = false → (doc.needsPassword = true → doc.emptyPwWorks = true) →
      (((pdfProcess rotTest false kws outPath doc).savedDoc = none) ↔
        (pdfProcess rotTest false kws outPath doc).res.removedCount = 0) ∧
      (pdfProcess rotTest false kws outPath doc).res.outputPath = some outPath) ∧
    (∀ (cfg : PPTXConfig) (outPath : List Char) (d : PPTXDoc), d.isZip = true →
      (((pptxProcess cfg false outPath d).savedDoc = none) ↔
        (pptxProcess cfg false outPath d).res.removedCount = 0)) := by
  constructor
  · intro τ rotTest kws outPath doc hf hpw
    rw [pdfProcess_open_eq rotTest false kws outPath doc hf hpw]
    refine ⟨?_, rfl⟩
    dsimp only
    by_cases hn : 0 < (if doc.needsPassword = true then 1 else 0) +
        docRemoved rotTest false kws doc
    · rw [if_pos ⟨rfl, hn⟩]
      constructor
      · intro h
        cases h
      · intro h
        omega
    · rw [if_neg (fun hc => hn hc.2)]
      constructor
      · intro _
        omega
      · intro _
        rfl
  · intro cfg outPath d hzip
    rw [pptxProcess_zip_eq cfg false outPath d hzip]
    dsimp only
    by_cases hn : 0 < (if d.presProtected = true then 1 else 0) + pptxWmCount cfg d
    · rw [if_pos ⟨rfl, hn⟩]
      constructor
      · intro h
        cases h
      · intro h
        omega
    · rw [if_neg (fun hc => hn hc.2)]
      constructor
      · intro _
        omega
      · intro _
        rfl

/-- Witness for C7's amended claim at a concrete document with one matching
keyword block. -/
theorem C7_amended_save_conditions_witness :
    (((pdfProcess (fun _ : Unit => false) false ["水印".toList] ".o".toList
        ⟨false, false, false,
          [⟨[⟨[PDFSeg.blk ⟨[], "BT 水印 ET".toList⟩]⟩]⟩]⟩).savedDoc = none) ↔
      (pdfProcess (fun _ : Unit => false) false ["水印".toList] ".o".toList
        ⟨false, false, false,
          [⟨[⟨[PDFSeg.blk ⟨[], "BT 水印 ET".toList⟩]⟩]⟩]⟩).res.removedCount = 0) ∧
    (((pptxProcess defaultPPTXConfig false ".o".toList ⟨true, false, []⟩).savedDoc = none) ↔
      (pptxProcess defaultPPTXConfig false ".o".toList ⟨true, false, []⟩).res.removedCount = 0) :=
  ⟨(C7_amended_save_conditions.1 Unit (fun _ => false) ["水印".toList] ".o".toList
      ⟨false, false, false, [⟨[⟨[PDFSeg.blk ⟨[], "BT 水印 ET".toList⟩]⟩]⟩]⟩
      rfl (fun h => by cases h)).1,
    C7_amended_save_conditions.2 defaultPPTXConfig ".o".toList ⟨true, false, []⟩ rfl⟩

/-- C3 counterexample: on the settings content
`<w:docum<w:documentProtection z>entProtection q>` the first application of
the word settings rule set deletes the embedded tag and thereby EXPOSES a
new `<w:documentProtection q>` match, so the second application reports a
change again (removed delta 1, output different from its input): the patch
rules are not idempotent on every part content. -/
theorem C3_counterexample :
    (processSettings "<w:docum<w:documentProtection z>entProtection q>".toList).2 = 1 ∧
    (processSettings
      (processSettings "<w:docum<w:documentProtection z>entProtection q>".toList).1).2 = 1 ∧
    (processSettings
        (processSettings "<w:docum<w:documentProtection z>entProtection q>".toList).1).1 ≠
      (processSettings "<w:docum<w:documentProtection z>entProtection q>".toList).1 := by
  decide

/-- C4 counterexample: a settings part holding exactly two documentProtection
elements (and an excel sheet part holding two sheetProtection elements): the
rule set deletes both matches (the output is empty), yet the part contributes
1 to removed_count, not 2 -- the counter accumulates per changed part, not
per successful match. -/
theorem C4_counterexample :
    (processSettings (xjoin [XPart.dpTag " a".toList, XPart.dpTag " b".toList])).1 = [] ∧
    (processSettings (xjoin [XPart.dpTag " a".toList, XPart.dpTag " b".toList])).2 = 1 ∧
    (processSheet "<sheetProtection a/><sheetProtection b/>".toList).1 = [] ∧
    (processSheet "<sheetProtection a/><sheetProtection b/>".toList).2 = 1 := by
  decide

/-- C4 amended: for a well-formed settings part, removed_count accumulates
exactly one unit per part in which at least one rule matched (one per changed
part), regardless of how many matching elements were deleted from it. -/
theorem C4_amended_per_part_counting :
    ∀ segs : List XPart, wfSettings segs = true →
      (processSettings (xjoin segs)).2 = (if hasTag segs then 1 else 0) := by
  intro segs hwf
  rw [processSettings_wf hwf]

/-- Witness for C4's amended claim: a part with two deleted matches
contributes exactly 1. -/
theorem C4_amended_per_part_counting_witness :
    (processSettings (xjoin [XPart.dpTag " a=\"1\"".toList, XPart.txt "<w:x/>".toList,
      XPart.dpTag " b=\"2\"".toList])).2 = 1 := by
  have h := C4_amended_per_part_counting [XPart.dpTag " a=\"1\"".toList,
    XPart.txt "<w:x/>".toList, XPart.dpTag " b=\"2\"".toList] (by decide)
  rw [h]
  decide

/-- C6 counterexample: a block whose only Tm satisfies the real rotation
condition (b=0.9, c=-0.9, so the constant-true boolean test agrees with
`rotCond` on it) and whose text contains the configured keyword: in APPLY mode
the block is deleted by the rotation branch and the keyword detection is
never recorded, so keyword classification is not independent of rotation
classification in apply mode. -/
theorem C6_counterexample :
    rotCond defaultPDFConfig 0.9 (-0.9) ∧
    containsSub "水印".toList "水印".toList = true ∧
    Detection.keyword "水印".toList ∉
      (filterBlock (fun _ : TmReal => true) false ["水印".toList]
        ⟨[⟨1, 0.9, -0.9, 1, 0, 0⟩], "水印".toList⟩).dets := by
  refine ⟨rotCond_default_09, by decide, ?_⟩
  rw [filterBlock_apply_rotated (fun _ : TmReal => true) ["水印".toList]
    ⟨[⟨1, 0.9, -0.9, 1, 0, 0⟩], "水印".toList⟩ ⟨1, 0.9, -0.9, 1, 0, 0⟩ rfl rfl]
  intro hmem
  rw [List.mem_singleton] at hmem
  cases hmem

/-- C6 amended: keyword classification is independent of rotation
classification in SCAN mode (every contained keyword is recorded even for a
rotated block); in APPLY mode a block whose rotation test fires is deleted
with only the rotation detection recorded (the keyword loop is never
reached), and for blocks whose rotation test does not fire the first matching
keyword is recorded and the block is deleted. -/
theorem C6_amended_keyword_independence :
    (∀ (τ : Type) (rotTest : τ → Bool) (kws : List (List Char)) (bl : TextBlock τ)
      (kw : List Char), kw ∈ kws → containsSub kw bl.content = true →
      Detection.keyword kw ∈ (filterBlock rotTest true kws bl).dets) ∧
    (∀ (τ : Type) (rotTest : τ → Bool) (kws : List (List Char)) (bl : TextBlock τ)
      (tm : τ), bl.tms.head? = some tm → rotTest tm = true →
      filterBlock rotTest false kws bl = ⟨1, none, [Detection.rotated tm]⟩) ∧
    (∀ (τ : Type) (rotTest : τ → Bool) (kws : List (List Char)) (bl : TextBlock τ)
      (kw : List Char), (∀ tm, bl.tms.head? = some tm → rotTest tm = false) →
      kws.find? (fun k => containsSub k bl.content) = some kw →
      filterBlock rotTest false kws bl = ⟨1, none, [Detection.keyword kw]⟩) := by
  refine ⟨?_, ?_, ?_⟩
  · intro τ rotTest kws bl kw hmem hc
    exact filterBlock_scan_keyword rotTest kws bl kw hmem hc
  · intro τ rotTest kws bl tm hh hr
    exact filterBlock_apply_rotated rotTest kws bl tm hh hr
  · intro τ rotTest kws bl kw hnr hf
    exact filterBlock_apply_keyword rotTest kws bl kw hnr hf

/-- Witness for C6's amended claim: in scan mode a rotated block's contained
keyword is still recorded; in apply mode a non-rotated block's first matching
keyword is recorded. -/
theorem C6_amended_keyword_independence_witness :
    Detection.keyword "水印".toList ∈
      (filterBlock (fun _ : Unit => true) true ["水印".toList]
        ⟨[()], "水印".toList⟩).dets ∧
    filterBlock (fun _ : Unit => false) false ["水印".toList] ⟨[()], "水印".toList⟩ =
      ⟨1, none, [Detection.keyword "水印".toList]⟩ := by
  constructor
  · exact C6_amended_keyword_independence.1 Unit (fun _ => true) ["水印".toList]
      ⟨[()], "水印".toList⟩ "水印".toList (by decide) (by decide)
  · exact C6_amended_keyword_independence.2.2 Unit (fun _ => false) ["水印".toList]
      ⟨[()], "水印".toList⟩ "水印".toList (fun tm _ => rfl) (by decide)

/-- C8: a file whose (lower-cased) extension is .xlsx or .docx but whose
bytes are not a ZIP archive is rejected by the pre-processing gate with the
encrypted-document failure result (success = false); it is never processed
further, so it can never yield a success result with zero watermarks found. -/
theorem C8_encrypted_gate :
    (∀ (conv : Option ExcelFile) (f : ExcelFile) (outPath : List Char),
      lowerL f.ext = dotXlsx → f.isZip = false →
      excelProcess conv f outPath = ⟨false, none, Msg.officeEncrypted, 0, 0⟩) ∧
    (∀ (mode : WMode) (conv : Option WordFile) (f : WordFile) (outPath : List Char),
      lowerL f.ext = dotDocx → f.isZip = false →
      wordProcess mode conv f outPath = ⟨false, none, Msg.officeEncrypted, 0, 0⟩) := by
  constructor
  · intro conv f outPath hext hzip
    rw [excelProcess.eq_def, if_pos ⟨hext, hzip⟩]
  · intro mode conv f outPath hext hzip
    rw [wordProcess.eq_def, if_pos ⟨hext, hzip⟩]

/-- Witness for C8 at concrete non-ZIP files with OOXML extensions. -/
theorem C8_encrypted_gate_witness :
    excelProcess none ⟨".xlsx".toList, false, ⟨none, []⟩, false, false⟩ ".o".toList =
      ⟨false, none, Msg.officeEncrypted, 0, 0⟩ ∧
    wordProcess WMode.allRules none ⟨".Docx".toList, false, ⟨none, [], none⟩⟩ ".o".toList =
      ⟨false, none, Msg.officeEncrypted, 0, 0⟩ :=
  ⟨C8_encrypted_gate.1 none ⟨".xlsx".toList, false, ⟨none, []⟩, false, false⟩
      ".o".toList (by decide) rfl,
    C8_encrypted_gate.2 WMode.allRules none ⟨".Docx".toList, false, ⟨none, [], none⟩⟩
      ".o".toList (by decide) rfl⟩

/-- C9 counterexample: a CLI batch of three files in which the second has an
unsupported extension.  `get_remover` calls sys.exit (SystemExit), which the
per-file `except Exception` does not catch, so the batch aborts: only the
first file's result is produced and the third file is never processed -- one
file's failure DOES prevent the remaining files from being processed. -/
theorem C9_counterexample :
    processBatch (fun _ : Unit => false) false []
      [BatchFile.pdfFile ⟨false, false, false, []⟩,
       BatchFile.unsupportedFile ".txt".toList,
       BatchFile.pdfFile ⟨false, false, false, []⟩] = ([⟨true, 0⟩], true) := by
  decide

/-- C9 amended: every internal fault raised as an ordinary exception is
recovered at the per-document boundary as a ProcessResult with
success = false (the processor never lets it escape), and a batch of
supported (PDF) files always runs to completion with one independent
per-file entry each -- a password failure or internal fault in one file
yields a success = false entry without affecting the other files.  Only the
unsupported-extension SystemExit path (see the counterexample) aborts a
batch. -/
theorem C9_amended_fault_boundary :
    (∀ (τ : Type) (rotTest : τ → Bool) (preview : Bool) (kws : List (List Char))
      (outPath : List Char) (doc : PDFDoc τ), doc.fault = true →
      (doc.needsPassword = true → doc.emptyPwWorks = true) →
      pdfProcess rotTest preview kws outPath doc =
        ⟨⟨false, none, Msg.pdfFailed, 0, 0⟩, none, doc⟩) ∧
    (∀ (τ : Type) (rotTest : τ → Bool) (preview : Bool) (kws : List (List Char))
      (docs : List (PDFDoc τ)),
      processBatch rotTest preview kws (docs.map BatchFile.pdfFile) =
        (docs.map (fun doc =>
          if doc.needsPassword ∨ doc.fault then (⟨false, 0⟩ : SingleResult)
          else ⟨true, docRemoved rotTest preview kws doc⟩), false)) := by
  constructor
  · intro τ rotTest preview kws outPath doc hfault hpw
    have hcond : ¬(doc.needsPassword = true ∧ doc.emptyPwWorks = false) := by
      rintro ⟨h1, h2⟩
      rw [hpw h1] at h2
      cases h2
    rw [pdfProcess, if_neg hcond, if_pos hfault]
  · intro τ rotTest preview kws docs
    induction docs with
    | nil => rfl
    | cons d rest ih =>
      simp only [List.map_cons, processBatch]
      cases hnp : d.needsPassword with
      | true =>
        simp [processSingleFile, runRemover, cliPdfRun, hnp, ih]
      | false =>
        cases hfl : d.fault with
        | true => simp [processSingleFile, runRemover, cliPdfRun, hnp, hfl, ih]
        | false => simp [processSingleFile, runRemover, cliPdfRun, hnp, hfl, ih]

/-- Witness for C9's amended claim: a faulted document yields the failure
result, and a concrete batch with a password-protected first file completes
with independent entries. -/
theorem C9_amended_fault_boundary_witness :
    pdfProcess (fun _ : Unit => false) false [] ".o".toList ⟨false, false, true, []⟩ =
      ⟨⟨false, none, Msg.pdfFailed, 0, 0⟩, none, ⟨false, false, true, []⟩⟩ ∧
    processBatch (fun _ : Unit => false) false []
      (([⟨true, false, false, []⟩, ⟨false, false, false, []⟩] :
        List (PDFDoc Unit)).map BatchFile.pdfFile) = ([⟨false, 0⟩, ⟨true, 0⟩], false) := by
  constructor
  · exact C9_amended_fault_boundary.1 Unit (fun _ => false) false [] ".o".toList
      ⟨false, false, true, []⟩ rfl (fun h => by cases h)
  · rw [C9_amended_fault_boundary.2 Unit (fun _ => false) false []
      [⟨true, false, false, []⟩, ⟨false, false, false, []⟩]]
    decide

/-- C10: a password-protected PDF that opens on the single empty-password
retry has its removed counter incremented by one for the decryption itself
(pdf_processor.py line 53); consequently a PDF with zero matching watermark
blocks still reports removed_count = 1, and in apply mode the document is
saved to the output path, the save condition removed > 0 being met by the
decryption alone. -/
theorem C10_decrypt_bump :
    ∀ (τ : Type) (rotTest : τ → Bool) (preview : Bool) (kws : List (List Char))
      (outPath : List Char) (doc : PDFDoc τ),
      doc.needsPassword = true → doc.emptyPwWorks = true → doc.fault = false →
      ((pdfProcess rotTest preview kws outPath doc).res.removedCount =
        1 + docRemoved rotTest preview kws doc) ∧
      (docRemoved rotTest false kws doc = 0 →
        (pdfProcess rotTest false kws outPath doc).res.removedCount = 1 ∧
        (pdfProcess rotTest false kws outPath doc).savedDoc =
          some (applyDoc rotTest kws doc) ∧
        (pdfProcess rotTest false kws outPath doc).res.outputPath = some outPath) := by
  intro τ rotTest preview kws outPath doc hnp hpw hf
  constructor
  · rw [pdfProcess_open_eq rotTest preview kws outPath doc hf (fun _ => hpw)]
    dsimp only
    rw [if_pos hnp]
  · intro hzero
    rw [pdfProcess_open_eq rotTest false kws outPath doc hf (fun _ => hpw)]
    dsimp only
    rw [if_pos hnp, hzero]
    exact ⟨rfl, by rw [if_pos ⟨rfl, by omega⟩]; rfl, rfl⟩

/-- Witness for C10 at a concrete empty-password PDF with no blocks. -/
theorem C10_decrypt_bump_witness :
    (pdfProcess (fun _ : Unit => false) false [] ".o".toList
      ⟨true, true, false, []⟩).res.removedCount = 1 ∧
    (pdfProcess (fun _ : Unit => false) false [] ".o".toList
      ⟨true, true, false, []⟩).savedDoc.isSome = true := by
  have h := C10_decrypt_bump Unit (fun _ => false) false [] ".o".toList
    ⟨true, true, false, []⟩ rfl rfl rfl
  have h2 := h.2 rfl
  exact ⟨h2.1, by rw [h2.2.1]; rfl⟩

/- ============ staged-rule machinery ============ -/

theorem ciPrefixMatch_cons_cons (zc ac : Char) (zs cs : List Char) :
    ciPrefixMatch (zc :: zs) (ac :: cs) =
      if zc.toLower = ac.toLower then ciPrefixMatch zs cs else none := by
  by_cases hc : zc.toLower = ac.toLower <;> simp [ciPrefixMatch, ciStep, hc]

theorem ciStep_inl_suffix {z t r : List Char}
    (h : ciStep z t = some (Sum.inl r)) : r <:+ t := by
  induction z generalizing t with
  | nil =>
    simp [ciStep] at h
    subst h
    exact List.suffix_rfl
  | cons zc zs ih =>
    cases t with
    | nil => simp [ciStep] at h
    | cons c cs =>
      simp only [ciStep] at h
      split at h
      · exact (ih h).trans (List.suffix_cons c cs)
      · exact absurd h (by simp)

theorem ciPrefixMatch_suffix {z t r : List Char}
    (h : ciPrefixMatch z t = some r) : r <:+ t := by
  unfold ciPrefixMatch at h
  cases hs : ciStep z t with
  | none => rw [hs] at h; cases h
  | some v =>
    cases v with
    | inl r2 =>
      rw [hs] at h
      simp only [Option.some_inj] at h
      subst h
      exact ciStep_inl_suffix hs
    | inr z2 => rw [hs] at h; cases h

theorem skipToGt_suffix : ∀ {t r : List Char}, skipToGt t = some r → r <:+ t := by
  intro t
  induction t with
  | nil => intro r h; cases h
  | cons c cs ih =>
    intro r h
    simp only [skipToGt] at h
    split at h
    · simp only [Option.some_inj] at h
      subst h
      exact List.suffix_cons c cs
    · exact (ih h).trans (List.suffix_cons c cs)

theorem occursCI_append_false {lit u t : List Char}
    (h : occursCI lit (u ++ t) = false) : occursCI lit t = false := by
  induction u with
  | nil => exact h
  | cons c cs ih =>
    apply ih
    have h2 : (ciPrefixMatch lit (c :: (cs ++ t))).isSome = false ∧
        occursCI lit (cs ++ t) = false := by
      simpa [occursCI] using h
    exact h2.2

theorem occursCI_suffix_false {lit t s : List Char} (hsub : t <:+ s)
    (h : occursCI lit s = false) : occursCI lit t = false := by
  obtain ⟨u, hu⟩ := hsub
  exact occursCI_append_false (hu ▸ h)

theorem findCI_none_of_not_occurs {st s : List Char}
    (h : occursCI st s = false) : findCI st s = none := by
  induction s with
  | nil =>
    have h2 : (ciPrefixMatch st []).isSome = false := by simpa [occursCI] using h
    cases hcp : ciPrefixMatch st [] with
    | none => simp [findCI, hcp]
    | some r => rw [hcp] at h2; cases h2
  | cons c cs ih =>
    have h2 : (ciPrefixMatch st (c :: cs)).isSome = false ∧ occursCI st cs = false := by
      simpa [occursCI] using h
    cases hcp : ciPrefixMatch st (c :: cs) with
    | none => simp [findCI, hcp, ih h2.2]
    | some r => rw [hcp] at h2; simp at h2

theorem ciPrefixMatch_isSome_take {z a b : List Char} (hlen : z.length ≤ a.length)
    (h : (ciPrefixMatch z (a ++ b)).isSome = true) :
    (ciPrefixMatch z a).isSome = true := by
  induction z generalizing a with
  | nil => simp [ciPrefixMatch, ciStep]
  | cons zc zs ih =>
    cases a with
    | nil => simp at hlen
    | cons ac as =>
      rw [List.cons_append, ciPrefixMatch_cons_cons] at h
      rw [ciPrefixMatch_cons_cons]
      by_cases hc : zc.toLower = ac.toLower
      · rw [if_pos hc] at h ⊢
        exact ih (by simpa using hlen) h
      · rw [if_neg hc] at h
        cases h

theorem findCI_exact (st : List Char) (hst : st ≠ []) :
    ∀ (g z : List Char), occursCI st (g ++ st.dropLast) = false →
    findCI st (g ++ (st ++ z)) = some z := by
  intro g
  induction g with
  | nil =>
    intro z _
    cases st with
    | nil => exact absurd rfl hst
    | cons s0 st2 =>
      show findCI (s0 :: st2) ((s0 :: st2) ++ z) = some z
      rw [List.cons_append, findCI, ← List.cons_append, ciPrefixMatch_self_append]
  | cons c g2 ih =>
    intro z h
    have hdecomp : c :: (g2 ++ (st ++ z)) =
        ((c :: g2) ++ st.dropLast) ++ (st.getLast hst :: z) := by
      conv =>
        left
        rw [show st = st.dropLast ++ [st.getLast hst] from
          (List.dropLast_append_getLast hst).symm]
      simp [List.append_assoc]
    have hnone : ciPrefixMatch st (c :: (g2 ++ (st ++ z))) = none := by
      cases hcp : ciPrefixMatch st (c :: (g2 ++ (st ++ z))) with
      | none => rfl
      | some r =>
        exfalso
        have hlen : st.length ≤ ((c :: g2) ++ st.dropLast).length := by
          simp [List.length_dropLast]
          omega
        have hsome : (ciPrefixMatch st
            (((c :: g2) ++ st.dropLast) ++ (st.getLast hst :: z))).isSome = true := by
          rw [← hdecomp, hcp]
          rfl
        have hocc : occursCI st ((c :: g2) ++ st.dropLast) = true :=
          occursCI_of_isSome (ciPrefixMatch_isSome_take hlen hsome)
        rw [hocc] at h
        cases h
    have htail : occursCI st (g2 ++ st.dropLast) = false := by
      rw [List.cons_append] at h
      have h2 : (ciPrefixMatch st (c :: (g2 ++ st.dropLast))).isSome = false ∧
          occursCI st (g2 ++ st.dropLast) = false := by
        simpa [occursCI] using h
      exact h2.2
    show findCI st (c :: (g2 ++ (st ++ z))) = some z
    rw [findCI, hnone]
    exact ih z htail

theorem stagesConsume_one_exact (close i z : List Char) (hcl : close ≠ [])
    (h : occursCI close (i ++ close.dropLast) = false) :
    stagesConsume [close] (i ++ (close ++ z)) = some z := by
  have he := findCI_exact close hcl i z h
  simp only [stagesConsume]
  rw [he]
  rfl

theorem stagesConsume_two_exact (mk close g0 g1 z : List Char)
    (hmk : mk ≠ []) (hcl : close ≠ [])
    (h0 : occursCI mk (g0 ++ mk.dropLast) = false)
    (h1 : occursCI close (g1 ++ close.dropLast) = false) :
    stagesConsume [mk, close] (g0 ++ (mk ++ (g1 ++ (close ++ z)))) = some z := by
  have e0 := findCI_exact mk hmk g0 (g1 ++ (close ++ z)) h0
  have e1 := stagesConsume_one_exact close g1 z hcl h1
  simp only [stagesConsume] at e1 ⊢
  rw [e0]
  simpa using e1

theorem subRuleGF_id_of_matcher_fails (lit : List Char)
    (m : List Char → Option (List Char))
    (hm : ∀ t, ciPrefixMatch lit t = none → m t = none) :
    ∀ (fuel : Nat) (s : List Char), occursCI lit s = false →
    subRuleGF m fuel s = s := by
  intro fuel
  induction fuel with
  | zero => intro s _; rfl
  | succ fu ih =>
    intro s h
    cases s with
    | nil => rfl
    | cons c cs =>
      have h2 : (ciPrefixMatch lit (c :: cs)).isSome = false ∧
          occursCI lit cs = false := by
        simpa [occursCI] using h
      have hcp : ciPrefixMatch lit (c :: cs) = none := by
        cases hc : ciPrefixMatch lit (c :: cs) with
        | none => rfl
        | some r => rw [hc] at h2; simp at h2
      simp only [subRuleGF, hm _ hcp]
      rw [ih cs h2.2]

theorem subRuleGF_staged_id (lit st : List Char) (stages2 : List (List Char)) :
    ∀ (fuel : Nat) (s : List Char), occursCI st s = false →
    subRuleGF (tryMatchStaged lit (st :: stages2)) fuel s = s := by
  intro fuel
  induction fuel with
  | zero => intro s _; rfl
  | succ fu ih =>
    intro s h
    cases s with
    | nil => rfl
    | cons c cs =>
      have htail : occursCI st cs = false := by
        have h2 : (ciPrefixMatch st (c :: cs)).isSome = false ∧
            occursCI st cs = false := by
          simpa [occursCI] using h
        exact h2.2
      have hnone : tryMatchStaged lit (st :: stages2) (c :: cs) = none := by
        unfold tryMatchStaged
        cases hcp : ciPrefixMatch lit (c :: cs) with
        | none => rfl
        | some r =>
          cases hsk : skipToGt r with
          | none =>
            rw [show Option.bind (some r) skipToGt = skipToGt r from rfl, hsk]
            rfl
          | some r2 =>
            have hsub : r2 <:+ (c :: cs) :=
              (skipToGt_suffix hsk).trans (ciPrefixMatch_suffix hcp)
            have hoc : occursCI st r2 = false := occursCI_suffix_false hsub h
            rw [show Option.bind (some r) skipToGt = skipToGt r from rfl, hsk]
            show stagesConsume (st :: stages2) r2 = none
            simp [stagesConsume, findCI_none_of_not_occurs hoc]
      simp only [subRuleGF, hnone]
      rw [ih cs htail]

theorem skipToGtSlash_append : ∀ (a : List Char), ('>' : Char) ∉ a →
    ∀ (z : List Char), skipToGtSlash (a ++ '/' :: '>' :: z) = some z := by
  intro a
  induction a with
  | nil =>
    intro _ z
    rfl
  | cons c cs ih =>
    intro h z
    simp only [List.mem_cons, not_or] at h
    have hne : ¬(c = '>') := fun he => h.1 he.symm
    show skipToGtSlash (c :: (cs ++ '/' :: '>' :: z)) = some z
    rw [skipToGtSlash.eq_def]
    split
    · next cs2 heq =>
      exfalso
      cases cs with
      | nil => simp at heq
      | cons d ds =>
        simp only [List.cons_append, List.cons.injEq] at heq
        have hd : d = '>' := heq.2.1
        subst hd
        exact h.2 (List.mem_cons_self _ _)
    · next c2 cs2 hng heq =>
      have hc : c = c2 ∧ cs ++ '/' :: '>' :: z = cs2 := by
        simpa using heq
      rw [← hc.1, ← hc.2, if_neg hne]
      exact ih h.2 z
    · next heq => cases heq

theorem spanContH (lit' : List Char) :
    ∀ (segs : List HSeg) (z : List Char), z ≠ [] → (∀ ch ∈ z, ch.toLower ≠ '<') →
    (ciPrefixMatch z (hjoin ('<' :: lit') segs)).isSome = true →
    (ciPrefixMatch z (hkeeps segs)).isSome = true := by
  intro segs
  induction segs with
  | nil =>
    intro z hz _ h
    cases z with
    | nil => exact absurd rfl hz
    | cons a as => simp [hjoin, ciPrefixMatch, ciStep] at h
  | cons seg rest ih =>
    intro z hz hlt h
    cases seg with
    | hkeep s =>
      rw [hjoin] at h
      rw [ciPrefixMatch_append] at h
      rw [hkeeps, ciPrefixMatch_append]
      cases hstep : ciStep z s with
      | none =>
        rw [hstep] at h
        simp at h
      | some v =>
        cases v with
        | inl r => simp
        | inr z2 =>
          rw [hstep] at h
          obtain ⟨hsuf, hne, _⟩ := ciStep_inr_suffix hstep
          exact ih z2 hne (fun ch hch => hlt ch (hsuf.subset hch)) h
    | hrem a b =>
      cases z with
      | nil => exact absurd rfl hz
      | cons z0 zs =>
        exfalso
        have h0 : z0.toLower ≠ '<' := hlt z0 (by simp)
        have hlow : ('<' : Char).toLower = '<' := by decide
        simp only [hjoin, List.cons_append, List.append_assoc] at h
        simp [ciPrefixMatch, ciStep, hlow, h0] at h

theorem spanTopH (lit' : List Char) (hlt : ∀ ch ∈ lit', ch.toLower ≠ '<')
    (c : Char) (s2 : List Char) (segs : List HSeg)
    (h : (ciPrefixMatch ('<' :: lit') ((c :: s2) ++ hjoin ('<' :: lit') segs)).isSome = true) :
    (ciPrefixMatch ('<' :: lit') ((c :: s2) ++ hkeeps segs)).isSome = true := by
  rw [ciPrefixMatch_append] at h ⊢
  cases hstep : ciStep ('<' :: lit') (c :: s2) with
  | none =>
    rw [hstep] at h
    simp at h
  | some v =>
    cases v with
    | inl r => simp
    | inr z2 =>
      rw [hstep] at h
      obtain ⟨hsuf, hne, hlen⟩ := ciStep_inr_suffix hstep
      have hlt2 : z2.length < ('<' :: lit').length := by
        simp only [List.length_cons] at hlen ⊢
        omega
      have hsuf2 : z2 <:+ lit' := by
        rcases List.suffix_cons_iff.mp hsuf with heq | hs
        · exfalso
          rw [heq] at hlt2
          exact lt_irrefl _ hlt2
        · exact hs
      exact spanContH lit' segs z2 hne (fun ch hch => hlt ch (hsuf2.subset hch)) h

theorem subRuleGF_hjoin (lit' : List Char) (hlt : ∀ ch ∈ lit', ch.toLower ≠ '<')
    (m : List Char → Option (List Char))
    (hfail : ∀ t, ciPrefixMatch ('<' :: lit') t = none → m t = none) :
    ∀ (n fuel : Nat) (segs : List HSeg), fuel + segs.length ≤ n →
    (∀ a b, HSeg.hrem a b ∈ segs →
      ∀ z, m (('<' :: lit') ++ (a ++ '>' :: (b ++ z))) = some z) →
    occursCI ('<' :: lit') (hkeeps segs) = false →
    (hjoin ('<' :: lit') segs).length ≤ fuel →
    subRuleGF m fuel (hjoin ('<' :: lit') segs) = hkeeps segs := by
  intro n
  induction n using Nat.strong_induction_on with
  | _ n ih =>
    intro fuel segs hn hstep hK hfuel
    cases segs with
    | nil =>
      cases fuel <;> simp [hjoin, hkeeps, subRuleGF]
    | cons seg rest =>
      cases seg with
      | hkeep s =>
        cases s with
        | nil =>
          have h1 : hjoin ('<' :: lit') (HSeg.hkeep [] :: rest) = hjoin ('<' :: lit') rest := by
            simp [hjoin]
          have h2 : hkeeps (HSeg.hkeep [] :: rest) = hkeeps rest := by simp [hkeeps]
          rw [h1, h2]
          have hn2 : fuel + rest.length ≤ n - 1 := by
            simp only [List.length_cons] at hn
            omega
          have hnlt : n - 1 < n := by
            simp only [List.length_cons] at hn
            omega
          refine ih (n - 1) hnlt fuel rest hn2
            (fun a b hab z => hstep a b (by simp [hab]) z) ?_ ?_
          · rw [h2] at hK
            exact hK
          · rw [h1] at hfuel
            exact hfuel
        | cons c s2 =>
          have hjn : hjoin ('<' :: lit') (HSeg.hkeep (c :: s2) :: rest) =
              c :: (s2 ++ hjoin ('<' :: lit') rest) := by simp [hjoin]
          have hkp : hkeeps (HSeg.hkeep (c :: s2) :: rest) =
              c :: (s2 ++ hkeeps rest) := by simp [hkeeps]
          cases fuel with
          | zero =>
            exfalso
            rw [hjn] at hfuel
            simp at hfuel
          | succ fu =>
            rw [hjn, hkp]
            have hKc : occursCI ('<' :: lit') (c :: (s2 ++ hkeeps rest)) = false := by
              rw [hkp] at hK
              exact hK
            have hcpnone : ciPrefixMatch ('<' :: lit')
                (c :: (s2 ++ hjoin ('<' :: lit') rest)) = none := by
              cases hcp : ciPrefixMatch ('<' :: lit')
                  (c :: (s2 ++ hjoin ('<' :: lit') rest)) with
              | none => rfl
              | some r =>
                exfalso
                have hs : (ciPrefixMatch ('<' :: lit')
                    ((c :: s2) ++ hkeeps rest)).isSome = true := by
                  refine spanTopH lit' hlt c s2 rest ?_
                  simp [hcp]
                have hocc : occursCI ('<' :: lit') ((c :: s2) ++ hkeeps rest) = true :=
                  occursCI_of_isSome hs
                rw [List.cons_append] at hocc
                rw [hocc] at hKc
                exact absurd hKc (by decide)
            have hnone : m (c :: (s2 ++ hjoin ('<' :: lit') rest)) = none :=
              hfail _ hcpnone
            simp only [subRuleGF, hnone]
            have hn2 : fu + (HSeg.hkeep s2 :: rest).length ≤ n - 1 := by
              simp only [List.length_cons] at hn ⊢
              omega
            have hnlt : n - 1 < n := by
              simp only [List.length_cons] at hn
              omega
            have hrest : subRuleGF m fu
                (hjoin ('<' :: lit') (HSeg.hkeep s2 :: rest)) = hkeeps (HSeg.hkeep s2 :: rest) := by
              refine ih (n - 1) hnlt fu (HSeg.hkeep s2 :: rest) hn2
                (fun a b hab z => hstep a b (by
                  simp only [List.mem_cons] at hab ⊢
                  rcases hab with h | h
                  · exact absurd h (by simp)
                  · exact Or.inr h) z) ?_ ?_
              · simp only [hkeeps]
                have h2 : ciPrefixMatch ('<' :: lit') (c :: (s2 ++ hkeeps rest)) = none ∧
                    occursCI ('<' :: lit') (s2 ++ hkeeps rest) = false := by
                  simpa [occursCI] using hKc
                exact h2.2
              · simp only [hjoin]
                rw [hjn] at hfuel
                simp only [List.length_cons] at hfuel
                omega
            simp only [hjoin, hkeeps] at hrest
            rw [hrest]
      | hrem a b =>
        cases fuel with
        | zero =>
          exfalso
          simp [hjoin] at hfuel
        | succ fu =>
          have hGJ : hjoin ('<' :: lit') (HSeg.hrem a b :: rest) =
              ('<' :: lit') ++ (a ++ '>' :: (b ++ hjoin ('<' :: lit') rest)) := by
            simp [hjoin, List.append_assoc]
          have hmatch : m (hjoin ('<' :: lit') (HSeg.hrem a b :: rest)) =
              some (hjoin ('<' :: lit') rest) := by
            rw [hGJ]
            exact hstep a b (by simp) (hjoin ('<' :: lit') rest)
          have hjn : hjoin ('<' :: lit') (HSeg.hrem a b :: rest) =
              '<' :: (lit' ++ (a ++ '>' :: (b ++ hjoin ('<' :: lit') rest))) := by
            simp [hjoin, List.append_assoc]
          rw [hjn] at hmatch
          rw [hjn]
          simp only [subRuleGF, hmatch]
          have hn2 : fu + rest.length ≤ n - 1 := by
            simp only [List.length_cons] at hn
            omega
          have hnlt : n - 1 < n := by
            simp only [List.length_cons] at hn
            omega
          have hfu : (hjoin ('<' :: lit') rest).length ≤ fu := by
            rw [hjn] at hfuel
            simp only [List.length_cons, List.length_append] at hfuel
            omega
          have := ih (n - 1) hnlt fu rest hn2
            (fun a2 b2 hab z => hstep a2 b2 (by simp [hab]) z)
            (by simpa [hkeeps] using hK) hfu
          rw [this]
          simp [hkeeps]

theorem subRuleG_hjoin (lit lit' : List Char) (hl : lit = '<' :: lit')
    (hlt : ∀ ch ∈ lit', ch.toLower ≠ '<')
    (m : List Char → Option (List Char))
    (hfail : ∀ t, ciPrefixMatch lit t = none → m t = none)
    (segs : List HSeg)
    (hstep : ∀ a b, HSeg.hrem a b ∈ segs →
      ∀ z, m (lit ++ (a ++ '>' :: (b ++ z))) = some z)
    (hK : occursCI lit (hkeeps segs) = false) :
    subRuleG m (hjoin lit segs) = hkeeps segs := by
  subst hl
  show subRuleGF m (hjoin ('<' :: lit') segs).length _ = _
  exact subRuleGF_hjoin lit' hlt m hfail
    ((hjoin ('<' :: lit') segs).length + segs.length)
    (hjoin ('<' :: lit') segs).length segs le_rfl hstep hK le_rfl

theorem gkeeps_length_le (lit : List Char) (segs : List GSeg) :
    (gkeeps segs).length ≤ (gjoin lit segs).length := by
  induction segs with
  | nil => simp [gjoin, gkeeps]
  | cons seg rest ih =>
    cases seg with
    | keep s =>
      simp only [gjoin, gkeeps, List.length_append]
      omega
    | rem a =>
      simp only [gjoin, gkeeps, List.length_append, List.length_cons]
      omega

theorem gkeeps_length_lt (lit : List Char) {segs : List GSeg}
    (h : hasRem segs = true) :
    (gkeeps segs).length < (gjoin lit segs).length := by
  induction segs with
  | nil => simp [hasRem] at h
  | cons seg rest ih =>
    cases seg with
    | keep s =>
      simp only [hasRem] at h
      have := ih h
      simp only [gjoin, gkeeps, List.length_append]
      omega
    | rem a =>
      have := gkeeps_length_le lit rest
      simp only [gjoin, gkeeps, List.length_append, List.length_cons]
      omega

theorem gjoin_eq_gkeeps_of_no_rem (lit : List Char) {segs : List GSeg}
    (h : hasRem segs = false) : gjoin lit segs = gkeeps segs := by
  induction segs with
  | nil => rfl
  | cons seg rest ih =>
    cases seg with
    | keep s =>
      simp only [hasRem] at h
      simp [gjoin, gkeeps, ih h]
    | rem a => simp [hasRem] at h

theorem hkeeps_length_le (lit : List Char) (segs : List HSeg) :
    (hkeeps segs).length ≤ (hjoin lit segs).length := by
  induction segs with
  | nil => simp [hjoin, hkeeps]
  | cons seg rest ih =>
    cases seg with
    | hkeep s =>
      simp only [hjoin, hkeeps, List.length_append]
      omega
    | hrem a b =>
      simp only [hjoin, hkeeps, List.length_append, List.length_cons]
      omega

theorem hkeeps_length_lt (lit : List Char) {segs : List HSeg}
    (h : hasHRem segs = true) :
    (hkeeps segs).length < (hjoin lit segs).length := by
  induction segs with
  | nil => simp [hasHRem] at h
  | cons seg rest ih =>
    cases seg with
    | hkeep s =>
      simp only [hasHRem] at h
      have := ih h
      simp only [hjoin, hkeeps, List.length_append]
      omega
    | hrem a b =>
      have := hkeeps_length_le lit rest
      simp only [hjoin, hkeeps, List.length_append, List.length_cons]
      omega

theorem hjoin_eq_hkeeps_of_no_rem (lit : List Char) {segs : List HSeg}
    (h : hasHRem segs = false) : hjoin lit segs = hkeeps segs := by
  induction segs with
  | nil => rfl
  | cons seg rest ih =>
    cases seg with
    | hkeep s =>
      simp only [hasHRem] at h
      simp [hjoin, hkeeps, ih h]
    | hrem a b => simp [hasHRem] at h

theorem subRuleG_staged_id_open (lit : List Char) (stages : List (List Char))
    (s : List Char) (h : occursCI lit s = false) :
    subRuleG (tryMatchStaged lit stages) s = s :=
  subRuleGF_id_of_matcher_fails lit _ (fun t ht => by simp [tryMatchStaged, ht])
    s.length s h

theorem subRuleG_slash_id_open (lit : List Char) (s : List Char)
    (h : occursCI lit s = false) :
    subRuleG (tryMatchTagSlash lit) s = s :=
  subRuleGF_id_of_matcher_fails lit _ (fun t ht => by simp [tryMatchTagSlash, ht])
    s.length s h

theorem subRuleG_staged_id_stage (lit st : List Char) (stages2 : List (List Char))
    (s : List Char) (h : occursCI st s = false) :
    subRuleG (tryMatchStaged lit (st :: stages2)) s = s :=
  subRuleGF_staged_id lit st stages2 s.length s h

theorem tryMatchStaged_exact (lit : List Char) (stages : List (List Char))
    (a r z : List Char) (ha : ('>' : Char) ∉ a)
    (hs : stagesConsume stages r = some z) :
    tryMatchStaged lit stages (lit ++ (a ++ '>' :: r)) = some z := by
  unfold tryMatchStaged
  rw [ciPrefixMatch_self_append]
  show Option.bind (skipToGt (a ++ '>' :: r)) (stagesConsume stages) = some z
  rw [skipToGt_append r ha]
  exact hs

theorem tryMatchTagSlash_exact (lit a0 z : List Char) (ha : ('>' : Char) ∉ a0) :
    tryMatchTagSlash lit (lit ++ (a0 ++ '/' :: '>' :: z)) = some z := by
  unfold tryMatchTagSlash
  rw [ciPrefixMatch_self_append]
  show skipToGtSlash (a0 ++ '/' :: '>' :: z) = some z
  exact skipToGtSlash_append a0 ha z

theorem processWorkbook_gseg (segs : List GSeg)
    (hA : ∀ a, GSeg.rem a ∈ segs → ('>' : Char) ∉ a)
    (hK : occursCI wbProtLit (gkeeps segs) = false) :
    processWorkbook (gjoin wbProtLit segs) =
      (gkeeps segs, if hasRem segs then 1 else 0) ∧
    processWorkbook (gkeeps segs) = (gkeeps segs, 0) := by
  have hc1 : subRule wbProtLit (gjoin wbProtLit segs) = gkeeps segs :=
    subRule_gjoin wbProtLit ("workbookProtection".toList) (by decide) (by decide)
      segs hA hK
  have hc2 : subRuleG (tryMatchStaged wbProtLit [wbProtCloseLit]) (gkeeps segs) =
      gkeeps segs :=
    subRuleG_staged_id_open wbProtLit [wbProtCloseLit] (gkeeps segs) hK
  have hc1' : subRule wbProtLit (gkeeps segs) = gkeeps segs :=
    subRule_id_of_not_occurs _ _ hK
  constructor
  · show (subRuleG (tryMatchStaged wbProtLit [wbProtCloseLit])
        (subRule wbProtLit (gjoin wbProtLit segs)),
      if subRuleG (tryMatchStaged wbProtLit [wbProtCloseLit])
          (subRule wbProtLit (gjoin wbProtLit segs)) = gjoin wbProtLit segs
        then 0 else 1) = _
    rw [hc1, hc2]
    by_cases hr : hasRem segs
    · have hne : gkeeps segs ≠ gjoin wbProtLit segs := by
        intro hEq
        have := gkeeps_length_lt wbProtLit hr
        rw [hEq] at this
        exact lt_irrefl _ this
      simp [hr, hne]
    · have hb : hasRem segs = false := by
        revert hr
        cases hasRem segs <;> simp
      rw [gjoin_eq_gkeeps_of_no_rem wbProtLit hb]
      simp [hb]
  · show (subRuleG (tryMatchStaged wbProtLit [wbProtCloseLit])
        (subRule wbProtLit (gkeeps segs)),
      if subRuleG (tryMatchStaged wbProtLit [wbProtCloseLit])
          (subRule wbProtLit (gkeeps segs)) = gkeeps segs
        then 0 else 1) = _
    rw [hc1', hc2]
    simp

theorem processSheet_gseg (segs1 segs2 : List GSeg)
    (hA1 : ∀ a, GSeg.rem a ∈ segs1 → ('>' : Char) ∉ a)
    (hK1 : occursCI sheetProtLit (gkeeps segs1) = false)
    (hlink : gkeeps segs1 = gjoin pictureLit segs2)
    (hA2 : ∀ a, GSeg.rem a ∈ segs2 → ('>' : Char) ∉ a)
    (hK2 : occursCI pictureLit (gkeeps segs2) = false)
    (hK3 : occursCI sheetProtLit (gkeeps segs2) = false) :
    processSheet (gjoin sheetProtLit segs1) =
      (gkeeps segs2, if hasRem segs1 || hasRem segs2 then 1 else 0) ∧
    processSheet (gkeeps segs2) = (gkeeps segs2, 0) := by
  have hc1 : subRule sheetProtLit (gjoin sheetProtLit segs1) = gkeeps segs1 :=
    subRule_gjoin sheetProtLit ("sheetProtection".toList) (by decide) (by decide)
      segs1 hA1 hK1
  have hc2 : subRuleG (tryMatchStaged sheetProtLit [sheetProtCloseLit]) (gkeeps segs1) =
      gkeeps segs1 :=
    subRuleG_staged_id_open sheetProtLit [sheetProtCloseLit] (gkeeps segs1) hK1
  have hc3 : subRule pictureLit (gkeeps segs1) = gkeeps segs2 := by
    rw [hlink]
    exact subRule_gjoin pictureLit ("picture".toList) (by decide) (by decide)
      segs2 hA2 hK2
  constructor
  · show (subRule pictureLit (subRuleG (tryMatchStaged sheetProtLit [sheetProtCloseLit])
        (subRule sheetProtLit (gjoin sheetProtLit segs1))),
      if subRule pictureLit (subRuleG (tryMatchStaged sheetProtLit [sheetProtCloseLit])
          (subRule sheetProtLit (gjoin sheetProtLit segs1))) = gjoin sheetProtLit segs1
        then 0 else 1) = _
    rw [hc1, hc2, hc3]
    by_cases hr : (hasRem segs1 || hasRem segs2) = true
    · have hlt : (gkeeps segs2).length < (gjoin sheetProtLit segs1).length := by
        have hle2 : (gkeeps segs2).length ≤ (gjoin pictureLit segs2).length :=
          gkeeps_length_le pictureLit segs2
        have hle1 : (gkeeps segs1).length ≤ (gjoin sheetProtLit segs1).length :=
          gkeeps_length_le sheetProtLit segs1
        rw [hlink] at hle1
        rcases Bool.or_eq_true_iff.mp hr with h1 | h2
        · have := gkeeps_length_lt sheetProtLit h1
          rw [hlink] at this
          omega
        · have := gkeeps_length_lt pictureLit h2
          omega
      have hne : gkeeps segs2 ≠ gjoin sheetProtLit segs1 := by
        intro hEq
        rw [hEq] at hlt
        exact lt_irrefl _ hlt
      simp [hr, hne]
    · have hb : (hasRem segs1 || hasRem segs2) = false := by
        revert hr
        cases hasRem segs1 <;> cases hasRem segs2 <;> simp
      have hb1 : hasRem segs1 = false := by
        revert hb
        cases hasRem segs1 <;> simp
      have hb2 : hasRem segs2 = false := by
        revert hb
        cases hasRem segs1 <;> cases hasRem segs2 <;> simp
      have hEq : gjoin sheetProtLit segs1 = gkeeps segs2 := by
        rw [gjoin_eq_gkeeps_of_no_rem sheetProtLit hb1, hlink,
          gjoin_eq_gkeeps_of_no_rem pictureLit hb2]
      rw [hEq]
      simp [hb]
  · have hc1' : subRule sheetProtLit (gkeeps segs2) = gkeeps segs2 :=
      subRule_id_of_not_occurs _ _ hK3
    have hc2' : subRuleG (tryMatchStaged sheetProtLit [sheetProtCloseLit])
        (gkeeps segs2) = gkeeps segs2 :=
      subRuleG_staged_id_open sheetProtLit [sheetProtCloseLit] (gkeeps segs2) hK3
    have hc3' : subRule pictureLit (gkeeps segs2) = gkeeps segs2 :=
      subRule_id_of_not_occurs _ _ hK2
    show (subRule pictureLit (subRuleG (tryMatchStaged sheetProtLit [sheetProtCloseLit])
        (subRule sheetProtLit (gkeeps segs2))),
      if subRule pictureLit (subRuleG (tryMatchStaged sheetProtLit [sheetProtCloseLit])
          (subRule sheetProtLit (gkeeps segs2))) = gkeeps segs2
        then 0 else 1) = _
    rw [hc1', hc2', hc3']
    simp

theorem processHeader_t136 (segs : List HSeg)
    (hB : ∀ a b, HSeg.hrem a b ∈ segs → ('>' : Char) ∉ a ∧
      ∃ g0 g1, b = g0 ++ (t136Lit ++ (g1 ++ pictCloseLit)) ∧
        occursCI t136Lit (g0 ++ t136Lit.dropLast) = false ∧
        occursCI pictCloseLit (g1 ++ pictCloseLit.dropLast) = false)
    (hK : occursCI pictLit (hkeeps segs) = false) :
    processHeader (hjoin pictLit segs) =
      (hkeeps segs, if hasHRem segs then 1 else 0) ∧
    processHeader (hkeeps segs) = (hkeeps segs, 0) := by
  have hstep : ∀ a b, HSeg.hrem a b ∈ segs →
      ∀ z, tryMatchStaged pictLit [t136Lit, pictCloseLit]
        (pictLit ++ (a ++ '>' :: (b ++ z))) = some z := by
    intro a b hab z
    obtain ⟨ha, g0, g1, hb, h0, h1⟩ := hB a b hab
    subst hb
    refine tryMatchStaged_exact pictLit [t136Lit, pictCloseLit] a _ z ha ?_
    rw [show (g0 ++ (t136Lit ++ (g1 ++ pictCloseLit))) ++ z =
        g0 ++ (t136Lit ++ (g1 ++ (pictCloseLit ++ z))) by simp [List.append_assoc]]
    exact stagesConsume_two_exact t136Lit pictCloseLit g0 g1 z (by decide) (by decide) h0 h1
  have hc1 : subRuleG (tryMatchStaged pictLit [t136Lit, pictCloseLit])
      (hjoin pictLit segs) = hkeeps segs :=
    subRuleG_hjoin pictLit ("w:pict".toList) (by decide) (by decide) _
      (fun t ht => by simp [tryMatchStaged, ht]) segs hstep hK
  have hid1 : subRuleG (tryMatchStaged pictLit [t136Lit, pictCloseLit])
      (hkeeps segs) = hkeeps segs :=
    subRuleG_staged_id_open pictLit [t136Lit, pictCloseLit] (hkeeps segs) hK
  have hid2 : subRuleG (tryMatchStaged pictLit [rotationLit, pictCloseLit])
      (hkeeps segs) = hkeeps segs :=
    subRuleG_staged_id_open pictLit [rotationLit, pictCloseLit] (hkeeps segs) hK
  have hid3 : subRuleG (tryMatchStaged pictLit [powerPlusLit, pictCloseLit])
      (hkeeps segs) = hkeeps segs :=
    subRuleG_staged_id_open pictLit [powerPlusLit, pictCloseLit] (hkeeps segs) hK
  constructor
  · show (subRuleG (tryMatchStaged pictLit [powerPlusLit, pictCloseLit])
        (subRuleG (tryMatchStaged pictLit [rotationLit, pictCloseLit])
          (subRuleG (tryMatchStaged pictLit [t136Lit, pictCloseLit])
            (hjoin pictLit segs))),
      if subRuleG (tryMatchStaged pictLit [powerPlusLit, pictCloseLit])
          (subRuleG (tryMatchStaged pictLit [rotationLit, pictCloseLit])
            (subRuleG (tryMatchStaged pictLit [t136Lit, pictCloseLit])
              (hjoin pictLit segs))) = hjoin pictLit segs
        then 0 else 1) = _
    rw [hc1, hid2, hid3]
    by_cases hr : hasHRem segs
    · have hne : hkeeps segs ≠ hjoin pictLit segs := by
        intro hEq
        have := hkeeps_length_lt pictLit hr
        rw [hEq] at this
        exact lt_irrefl _ this
      simp [hr, hne]
    · have hb : hasHRem segs = false := by
        revert hr
        cases hasHRem segs <;> simp
      rw [hjoin_eq_hkeeps_of_no_rem pictLit hb]
      simp [hb]
  · show (subRuleG (tryMatchStaged pictLit [powerPlusLit, pictCloseLit])
        (subRuleG (tryMatchStaged pictLit [rotationLit, pictCloseLit])
          (subRuleG (tryMatchStaged pictLit [t136Lit, pictCloseLit])
            (hkeeps segs))),
      if subRuleG (tryMatchStaged pictLit [powerPlusLit, pictCloseLit])
          (subRuleG (tryMatchStaged pictLit [rotationLit, pictCloseLit])
            (subRuleG (tryMatchStaged pictLit [t136Lit, pictCloseLit])
              (hkeeps segs))) = hkeeps segs
        then 0 else 1) = _
    rw [hid1, hid2, hid3]
    simp

theorem processHeader_rotation (segs : List HSeg)
    (hB : ∀ a b, HSeg.hrem a b ∈ segs → ('>' : Char) ∉ a ∧
      ∃ g0 g1, b = g0 ++ (rotationLit ++ (g1 ++ pictCloseLit)) ∧
        occursCI rotationLit (g0 ++ rotationLit.dropLast) = false ∧
        occursCI pictCloseLit (g1 ++ pictCloseLit.dropLast) = false)
    (hK : occursCI pictLit (hkeeps segs) = false)
    (hT : occursCI t136Lit (hjoin pictLit segs) = false) :
    processHeader (hjoin pictLit segs) =
      (hkeeps segs, if hasHRem segs then 1 else 0) ∧
    processHeader (hkeeps segs) = (hkeeps segs, 0) := by
  have hstep : ∀ a b, HSeg.hrem a b ∈ segs →
      ∀ z, tryMatchStaged pictLit [rotationLit, pictCloseLit]
        (pictLit ++ (a ++ '>' :: (b ++ z))) = some z := by
    intro a b hab z
    obtain ⟨ha, g0, g1, hb, h0, h1⟩ := hB a b hab
    subst hb
    refine tryMatchStaged_exact pictLit [rotationLit, pictCloseLit] a _ z ha ?_
    rw [show (g0 ++ (rotationLit ++ (g1 ++ pictCloseLit))) ++ z =
        g0 ++ (rotationLit ++ (g1 ++ (pictCloseLit ++ z))) by simp [List.append_assoc]]
    exact stagesConsume_two_exact rotationLit pictCloseLit g0 g1 z (by decide) (by decide) h0 h1
  have hidT : subRuleG (tryMatchStaged pictLit [t136Lit, pictCloseLit])
      (hjoin pictLit segs) = hjoin pictLit segs :=
    subRuleG_staged_id_stage pictLit t136Lit [pictCloseLit] (hjoin pictLit segs) hT
  have hc2 : subRuleG (tryMatchStaged pictLit [rotationLit, pictCloseLit])
      (hjoin pictLit segs) = hkeeps segs :=
    subRuleG_hjoin pictLit ("w:pict".toList) (by decide) (by decide) _
      (fun t ht => by simp [tryMatchStaged, ht]) segs hstep hK
  have hid1 : subRuleG (tryMatchStaged pictLit [t136Lit, pictCloseLit])
      (hkeeps segs) = hkeeps segs :=
    subRuleG_staged_id_open pictLit [t136Lit, pictCloseLit] (hkeeps segs) hK
  have hid2 : subRuleG (tryMatchStaged pictLit [rotationLit, pictCloseLit])
      (hkeeps segs) = hkeeps segs :=
    subRuleG_staged_id_open pictLit [rotationLit, pictCloseLit] (hkeeps segs) hK
  have hid3 : subRuleG (tryMatchStaged pictLit [powerPlusLit, pictCloseLit])
      (hkeeps segs) = hkeeps segs :=
    subRuleG_staged_id_open pictLit [powerPlusLit, pictCloseLit] (hkeeps segs) hK
  constructor
  · show (subRuleG (tryMatchStaged pictLit [powerPlusLit, pictCloseLit])
        (subRuleG (tryMatchStaged pictLit [rotationLit, pictCloseLit])
          (subRuleG (tryMatchStaged pictLit [t136Lit, pictCloseLit])
            (hjoin pictLit segs))),
      if subRuleG (tryMatchStaged pictLit [powerPlusLit, pictCloseLit])
          (subRuleG (tryMatchStaged pictLit [rotationLit, pictCloseLit])
            (subRuleG (tryMatchStaged pictLit [t136Lit, pictCloseLit])
              (hjoin pictLit segs))) = hjoin pictLit segs
        then 0 else 1) = _
    rw [hidT, hc2, hid3]
    by_cases hr : hasHRem segs
    · have hne : hkeeps segs ≠ hjoin pictLit segs := by
        intro hEq
        have := hkeeps_length_lt pictLit hr
        rw [hEq] at this
        exact lt_irrefl _ this
      simp [hr, hne]
    · have hb : hasHRem segs = false := by
        revert hr
        cases hasHRem segs <;> simp
      rw [hjoin_eq_hkeeps_of_no_rem pictLit hb]
      simp [hb]
  · show (subRuleG (tryMatchStaged pictLit [powerPlusLit, pictCloseLit])
        (subRuleG (tryMatchStaged pictLit [rotationLit, pictCloseLit])
          (subRuleG (tryMatchStaged pictLit [t136Lit, pictCloseLit])
            (hkeeps segs))),
      if subRuleG (tryMatchStaged pictLit [powerPlusLit, pictCloseLit])
          (subRuleG (tryMatchStaged pictLit [rotationLit, pictCloseLit])
            (subRuleG (tryMatchStaged pictLit [t136Lit, pictCloseLit])
              (hkeeps segs))) = hkeeps segs
        then 0 else 1) = _
    rw [hid1, hid2, hid3]
    simp

theorem processHeader_powerplus (segs : List HSeg)
    (hB : ∀ a b, HSeg.hrem a b ∈ segs → ('>' : Char) ∉ a ∧
      ∃ g0 g1, b = g0 ++ (powerPlusLit ++ (g1 ++ pictCloseLit)) ∧
        occursCI powerPlusLit (g0 ++ powerPlusLit.dropLast) = false ∧
        occursCI pictCloseLit (g1 ++ pictCloseLit.dropLast) = false)
    (hK : occursCI pictLit (hkeeps segs) = false)
    (hT : occursCI t136Lit (hjoin pictLit segs) = false)
    (hRot : occursCI rotationLit (hjoin pictLit segs) = false) :
    processHeader (hjoin pictLit segs) =
      (hkeeps segs, if hasHRem segs then 1 else 0) ∧
    processHeader (hkeeps segs) = (hkeeps segs, 0) := by
  have hstep : ∀ a b, HSeg.hrem a b ∈ segs →
      ∀ z, tryMatchStaged pictLit [powerPlusLit, pictCloseLit]
        (pictLit ++ (a ++ '>' :: (b ++ z))) = some z := by
    intro a b hab z
    obtain ⟨ha, g0, g1, hb, h0, h1⟩ := hB a b hab
    subst hb
    refine tryMatchStaged_exact pictLit [powerPlusLit, pictCloseLit] a _ z ha ?_
    rw [show (g0 ++ (powerPlusLit ++ (g1 ++ pictCloseLit))) ++ z =
        g0 ++ (powerPlusLit ++ (g1 ++ (pictCloseLit ++ z))) by simp [List.append_assoc]]
    exact stagesConsume_two_exact powerPlusLit pictCloseLit g0 g1 z (by decide) (by decide) h0 h1
  have hidT : subRuleG (tryMatchStaged pictLit [t136Lit, pictCloseLit])
      (hjoin pictLit segs) = hjoin pictLit segs :=
    subRuleG_staged_id_stage pictLit t136Lit [pictCloseLit] (hjoin pictLit segs) hT
  have hidR : subRuleG (tryMatchStaged pictLit [rotationLit, pictCloseLit])
      (hjoin pictLit segs) = hjoin pictLit segs :=
    subRuleG_staged_id_stage pictLit rotationLit [pictCloseLit] (hjoin pictLit segs) hRot
  have hc3 : subRuleG (tryMatchStaged pictLit [powerPlusLit, pictCloseLit])
      (hjoin pictLit segs) = hkeeps segs :=
    subRuleG_hjoin pictLit ("w:pict".toList) (by decide) (by decide) _
      (fun t ht => by simp [tryMatchStaged, ht]) segs hstep hK
  have hid1 : subRuleG (tryMatchStaged pictLit [t136Lit, pictCloseLit])
      (hkeeps segs) = hkeeps segs :=
    subRuleG_staged_id_open pictLit [t136Lit, pictCloseLit] (hkeeps segs) hK
  have hid2 : subRuleG (tryMatchStaged pictLit [rotationLit, pictCloseLit])
      (hkeeps segs) = hkeeps segs :=
    subRuleG_staged_id_open pictLit [rotationLit, pictCloseLit] (hkeeps segs) hK
  have hid3 : subRuleG (tryMatchStaged pictLit [powerPlusLit, pictCloseLit])
      (hkeeps segs) = hkeeps segs :=
    subRuleG_staged_id_open pictLit [powerPlusLit, pictCloseLit] (hkeeps segs) hK
  constructor
  · show (subRuleG (tryMatchStaged pictLit [powerPlusLit, pictCloseLit])
        (subRuleG (tryMatchStaged pictLit [rotationLit, pictCloseLit])
          (subRuleG (tryMatchStaged pictLit [t136Lit, pictCloseLit])
            (hjoin pictLit segs))),
      if subRuleG (tryMatchStaged pictLit [powerPlusLit, pictCloseLit])
          (subRuleG (tryMatchStaged pictLit [rotationLit, pictCloseLit])
            (subRuleG (tryMatchStaged pictLit [t136Lit, pictCloseLit])
              (hjoin pictLit segs))) = hjoin pictLit segs
        then 0 else 1) = _
    rw [hidT, hidR, hc3]
    by_cases hr : hasHRem segs
    · have hne : hkeeps segs ≠ hjoin pictLit segs := by
        intro hEq
        have := hkeeps_length_lt pictLit hr
        rw [hEq] at this
        exact lt_irrefl _ this
      simp [hr, hne]
    · have hb : hasHRem segs = false := by
        revert hr
        cases hasHRem segs <;> simp
      rw [hjoin_eq_hkeeps_of_no_rem pictLit hb]
      simp [hb]
  · show (subRuleG (tryMatchStaged pictLit [powerPlusLit, pictCloseLit])
        (subRuleG (tryMatchStaged pictLit [rotationLit, pictCloseLit])
          (subRuleG (tryMatchStaged pictLit [t136Lit, pictCloseLit])
            (hkeeps segs))),
      if subRuleG (tryMatchStaged pictLit [powerPlusLit, pictCloseLit])
          (subRuleG (tryMatchStaged pictLit [rotationLit, pictCloseLit])
            (subRuleG (tryMatchStaged pictLit [t136Lit, pictCloseLit])
              (hkeeps segs))) = hkeeps segs
        then 0 else 1) = _
    rw [hid1, hid2, hid3]
    simp

theorem processDocumentXml_pair (segs : List HSeg)
    (hB : ∀ a b, HSeg.hrem a b ∈ segs → ('>' : Char) ∉ a ∧
      ∃ g, b = g ++ bgCloseLit ∧
        occursCI bgCloseLit (g ++ bgCloseLit.dropLast) = false)
    (hK : occursCI bgLit (hkeeps segs) = false) :
    processDocumentXml (hjoin bgLit segs) =
      (hkeeps segs, if hasHRem segs then 1 else 0) ∧
    processDocumentXml (hkeeps segs) = (hkeeps segs, 0) := by
  have hstep : ∀ a b, HSeg.hrem a b ∈ segs →
      ∀ z, tryMatchStaged bgLit [bgCloseLit]
        (bgLit ++ (a ++ '>' :: (b ++ z))) = some z := by
    intro a b hab z
    obtain ⟨ha, g, hb, h0⟩ := hB a b hab
    subst hb
    refine tryMatchStaged_exact bgLit [bgCloseLit] a _ z ha ?_
    rw [show (g ++ bgCloseLit) ++ z = g ++ (bgCloseLit ++ z) by
      simp [List.append_assoc]]
    exact stagesConsume_one_exact bgCloseLit g z (by decide) h0
  have hc1 : subRuleG (tryMatchStaged bgLit [bgCloseLit])
      (hjoin bgLit segs) = hkeeps segs :=
    subRuleG_hjoin bgLit ("w:background".toList) (by decide) (by decide) _
      (fun t ht => by simp [tryMatchStaged, ht]) segs hstep hK
  have hid1 : subRuleG (tryMatchStaged bgLit [bgCloseLit])
      (hkeeps segs) = hkeeps segs :=
    subRuleG_staged_id_open bgLit [bgCloseLit] (hkeeps segs) hK
  have hid2 : subRuleG (tryMatchTagSlash bgLit) (hkeeps segs) = hkeeps segs :=
    subRuleG_slash_id_open bgLit (hkeeps segs) hK
  constructor
  · show (subRuleG (tryMatchTagSlash bgLit)
        (subRuleG (tryMatchStaged bgLit [bgCloseLit]) (hjoin bgLit segs)),
      if subRuleG (tryMatchTagSlash bgLit)
          (subRuleG (tryMatchStaged bgLit [bgCloseLit]) (hjoin bgLit segs)) =
          hjoin bgLit segs
        then 0 else 1) = _
    rw [hc1, hid2]
    by_cases hr : hasHRem segs
    · have hne : hkeeps segs ≠ hjoin bgLit segs := by
        intro hEq
        have := hkeeps_length_lt bgLit hr
        rw [hEq] at this
        exact lt_irrefl _ this
      simp [hr, hne]
    · have hb : hasHRem segs = false := by
        revert hr
        cases hasHRem segs <;> simp
      rw [hjoin_eq_hkeeps_of_no_rem bgLit hb]
      simp [hb]
  · show (subRuleG (tryMatchTagSlash bgLit)
        (subRuleG (tryMatchStaged bgLit [bgCloseLit]) (hkeeps segs)),
      if subRuleG (tryMatchTagSlash bgLit)
          (subRuleG (tryMatchStaged bgLit [bgCloseLit]) (hkeeps segs)) =
          hkeeps segs
        then 0 else 1) = _
    rw [hid1, hid2]
    simp

theorem processDocumentXml_selfclosing (segs : List HSeg)
    (hB : ∀ a b, HSeg.hrem a b ∈ segs → b = [] ∧
      ∃ a0, a = a0 ++ ['/'] ∧ ('>' : Char) ∉ a0)
    (hK : occursCI bgLit (hkeeps segs) = false)
    (hC : occursCI bgCloseLit (hjoin bgLit segs) = false) :
    processDocumentXml (hjoin bgLit segs) =
      (hkeeps segs, if hasHRem segs then 1 else 0) ∧
    processDocumentXml (hkeeps segs) = (hkeeps segs, 0) := by
  have hstep : ∀ a b, HSeg.hrem a b ∈ segs →
      ∀ z, tryMatchTagSlash bgLit (bgLit ++ (a ++ '>' :: (b ++ z))) = some z := by
    intro a b hab z
    obtain ⟨hb, a0, ha, ha0⟩ := hB a b hab
    subst hb
    subst ha
    rw [show (a0 ++ ['/']) ++ '>' :: ([] ++ z) = a0 ++ '/' :: '>' :: z by
      simp [List.append_assoc]]
    exact tryMatchTagSlash_exact bgLit a0 z ha0
  have hidC : subRuleG (tryMatchStaged bgLit [bgCloseLit])
      (hjoin bgLit segs) = hjoin bgLit segs :=
    subRuleG_staged_id_stage bgLit bgCloseLit [] (hjoin bgLit segs) hC
  have hc2 : subRuleG (tryMatchTagSlash bgLit) (hjoin bgLit segs) = hkeeps segs :=
    subRuleG_hjoin bgLit ("w:background".toList) (by decide) (by decide) _
      (fun t ht => by simp [tryMatchTagSlash, ht]) segs hstep hK
  have hid1 : subRuleG (tryMatchStaged bgLit [bgCloseLit])
      (hkeeps segs) = hkeeps segs :=
    subRuleG_staged_id_open bgLit [bgCloseLit] (hkeeps segs) hK
  have hid2 : subRuleG (tryMatchTagSlash bgLit) (hkeeps segs) = hkeeps segs :=
    subRuleG_slash_id_open bgLit (hkeeps segs) hK
  constructor
  · show (subRuleG (tryMatchTagSlash bgLit)
        (subRuleG (tryMatchStaged bgLit [bgCloseLit]) (hjoin bgLit segs)),
      if subRuleG (tryMatchTagSlash bgLit)
          (subRuleG (tryMatchStaged bgLit [bgCloseLit]) (hjoin bgLit segs)) =
          hjoin bgLit segs
        then 0 else 1) = _
    rw [hidC, hc2]
    by_cases hr : hasHRem segs
    · have hne : hkeeps segs ≠ hjoin bgLit segs := by
        intro hEq
        have := hkeeps_length_lt bgLit hr
        rw [hEq] at this
        exact lt_irrefl _ this
      simp [hr, hne]
    · have hb : hasHRem segs = false := by
        revert hr
        cases hasHRem segs <;> simp
      rw [hjoin_eq_hkeeps_of_no_rem bgLit hb]
      simp [hb]
  · show (subRuleG (tryMatchTagSlash bgLit)
        (subRuleG (tryMatchStaged bgLit [bgCloseLit]) (hkeeps segs)),
      if subRuleG (tryMatchTagSlash bgLit)
          (subRuleG (tryMatchStaged bgLit [bgCloseLit]) (hkeeps segs)) =
          hkeeps segs
        then 0 else 1) = _
    rw [hid1, hid2]
    simp

/-- C3 amended: the patch rules of all three rule sets -- the word settings
protection rules, the excel workbook and sheet protection/picture rules, the
word header watermark rules and the word document.xml background rules -- are
idempotent on well-formed part contents: whenever the target tags occur only
as complete well-delimited elements whose open-tag attributes contain no
angle brackets, whose marker and closing literals occur exactly where the
element structure places them, and whose pattern literals do not otherwise
occur (even case-insensitively, or split across a removed piece) in the
surviving text, one application deletes exactly what the patterns match --
for the settings rules the whole tags; for the workbook/sheet and other
single-tag rules the matched open tags, so that a pair-form element leaves
its inner text and close tag behind as surviving content; for the staged
header and background rules the whole element through its closing literal --
and a second application of the same part rewrite reports no change and
removed delta 0. -/
theorem C3_amended_idempotent_wf :
    (∀ segs : List XPart, wfSettings segs = true →
      processSettings (xjoin segs) = (xclean segs, if hasTag segs then 1 else 0) ∧
      processSettings ((processSettings (xjoin segs)).1) =
        ((processSettings (xjoin segs)).1, 0)) ∧
    (∀ segs : List GSeg,
      (∀ a, GSeg.rem a ∈ segs → ('>' : Char) ∉ a) →
      occursCI wbProtLit (gkeeps segs) = false →
      processWorkbook (gjoin wbProtLit segs) =
        (gkeeps segs, if hasRem segs then 1 else 0) ∧
      processWorkbook ((processWorkbook (gjoin wbProtLit segs)).1) =
        ((processWorkbook (gjoin wbProtLit segs)).1, 0)) ∧
    (∀ segs1 segs2 : List GSeg,
      (∀ a, GSeg.rem a ∈ segs1 → ('>' : Char) ∉ a) →
      occursCI sheetProtLit (gkeeps segs1) = false →
      gkeeps segs1 = gjoin pictureLit segs2 →
      (∀ a, GSeg.rem a ∈ segs2 → ('>' : Char) ∉ a) →
      occursCI pictureLit (gkeeps segs2) = false →
      occursCI sheetProtLit (gkeeps segs2) = false →
      processSheet (gjoin sheetProtLit segs1) =
        (gkeeps segs2, if hasRem segs1 || hasRem segs2 then 1 else 0) ∧
      processSheet ((processSheet (gjoin sheetProtLit segs1)).1) =
        ((processSheet (gjoin sheetProtLit segs1)).1, 0)) ∧
    (∀ segs : List HSeg,
      (∀ a b, HSeg.hrem a b ∈ segs → ('>' : Char) ∉ a ∧
        ∃ g0 g1, b = g0 ++ (t136Lit ++ (g1 ++ pictCloseLit)) ∧
          occursCI t136Lit (g0 ++ t136Lit.dropLast) = false ∧
          occursCI pictCloseLit (g1 ++ pictCloseLit.dropLast) = false) →
      occursCI pictLit (hkeeps segs) = false →
      processHeader (hjoin pictLit segs) =
        (hkeeps segs, if hasHRem segs then 1 else 0) ∧
      processHeader ((processHeader (hjoin pictLit segs)).1) =
        ((processHeader (hjoin pictLit segs)).1, 0)) ∧
    (∀ segs : List HSeg,
      (∀ a b, HSeg.hrem a b ∈ segs → ('>' : Char) ∉ a ∧
        ∃ g0 g1, b = g0 ++ (rotationLit ++ (g1 ++ pictCloseLit)) ∧
          occursCI rotationLit (g0 ++ rotationLit.dropLast) = false ∧
          occursCI pictCloseLit (g1 ++ pictCloseLit.dropLast) = false) →
      occursCI pictLit (hkeeps segs) = false →
      occursCI t136Lit (hjoin pictLit segs) = false →
      processHeader (hjoin pictLit segs) =
        (hkeeps segs, if hasHRem segs then 1 else 0) ∧
      processHeader ((processHeader (hjoin pictLit segs)).1) =
        ((processHeader (hjoin pictLit segs)).1, 0)) ∧
    (∀ segs : List HSeg,
      (∀ a b, HSeg.hrem a b ∈ segs → ('>' : Char) ∉ a ∧
        ∃ g0 g1, b = g0 ++ (powerPlusLit ++ (g1 ++ pictCloseLit)) ∧
          occursCI powerPlusLit (g0 ++ powerPlusLit.dropLast) = false ∧
          occursCI pictCloseLit (g1 ++ pictCloseLit.dropLast) = false) →
      occursCI pictLit (hkeeps segs) = false →
      occursCI t136Lit (hjoin pictLit segs) = false →
      occursCI rotationLit (hjoin pictLit segs) = false →
      processHeader (hjoin pictLit segs) =
        (hkeeps segs, if hasHRem segs then 1 else 0) ∧
      processHeader ((processHeader (hjoin pictLit segs)).1) =
        ((processHeader (hjoin pictLit segs)).1, 0)) ∧
    (∀ segs : List HSeg,
      (∀ a b, HSeg.hrem a b ∈ segs → ('>' : Char) ∉ a ∧
        ∃ g, b = g ++ bgCloseLit ∧
          occursCI bgCloseLit (g ++ bgCloseLit.dropLast) = false) →
      occursCI bgLit (hkeeps segs) = false →
      processDocumentXml (hjoin bgLit segs) =
        (hkeeps segs, if hasHRem segs then 1 else 0) ∧
      processDocumentXml ((processDocumentXml (hjoin bgLit segs)).1) =
        ((processDocumentXml (hjoin bgLit segs)).1, 0)) ∧
    (∀ segs : List HSeg,
      (∀ a b, HSeg.hrem a b ∈ segs → b = [] ∧
        ∃ a0, a = a0 ++ ['/'] ∧ ('>' : Char) ∉ a0) →
      occursCI bgLit (hkeeps segs) = false →
      occursCI bgCloseLit (hjoin bgLit segs) = false →
      processDocumentXml (hjoin bgLit segs) =
        (hkeeps segs, if hasHRem segs then 1 else 0) ∧
      processDocumentXml ((processDocumentXml (hjoin bgLit segs)).1) =
        ((processDocumentXml (hjoin bgLit segs)).1, 0)) := by
  refine ⟨?_, ?_, ?_, ?_, ?_, ?_, ?_, ?_⟩
  · intro segs hwf
    have h1 := processSettings_wf hwf
    refine ⟨h1, ?_⟩
    rw [h1]
    exact processSettings_clean_id hwf
  · intro segs hA hK
    have h := processWorkbook_gseg segs hA hK
    refine ⟨h.1, ?_⟩
    rw [h.1]
    exact h.2
  · intro segs1 segs2 hA1 hK1 hlink hA2 hK2 hK3
    have h := processSheet_gseg segs1 segs2 hA1 hK1 hlink hA2 hK2 hK3
    refine ⟨h.1, ?_⟩
    rw [h.1]
    exact h.2
  · intro segs hB hK
    have h := processHeader_t136 segs hB hK
    refine ⟨h.1, ?_⟩
    rw [h.1]
    exact h.2
  · intro segs hB hK hT
    have h := processHeader_rotation segs hB hK hT
    refine ⟨h.1, ?_⟩
    rw [h.1]
    exact h.2
  · intro segs hB hK hT hRot
    have h := processHeader_powerplus segs hB hK hT hRot
    refine ⟨h.1, ?_⟩
    rw [h.1]
    exact h.2
  · intro segs hB hK
    have h := processDocumentXml_pair segs hB hK
    refine ⟨h.1, ?_⟩
    rw [h.1]
    exact h.2
  · intro segs hB hK hC
    have h := processDocumentXml_selfclosing segs hB hK hC
    refine ⟨h.1, ?_⟩
    rw [h.1]
    exact h.2

/-- Witness for C3's amended claim: one concrete well-formed part per rule
set -- a settings part, a workbook part with a pair-form protection element
(whose inner text and close tag survive), a sheet part whose picture tag is
deleted by the later pass, one header part per watermark marker kind, and a
pair-form and a self-closing document.xml background part -- each changed
with removed delta 1 by the first application and left unchanged with
removed delta 0 by the second. -/
theorem C3_amended_idempotent_wf_witness :
    (processSettings (xjoin [XPart.txt "<w:settings>".toList,
        XPart.dpTag " w:edit=\"readOnly\"".toList, XPart.txt "</w:settings>".toList]) =
      (xclean [XPart.txt "<w:settings>".toList,
        XPart.dpTag " w:edit=\"readOnly\"".toList, XPart.txt "</w:settings>".toList], 1) ∧
    processSettings ((processSettings (xjoin [XPart.txt "<w:settings>".toList,
        XPart.dpTag " w:edit=\"readOnly\"".toList, XPart.txt "</w:settings>".toList])).1) =
      ((processSettings (xjoin [XPart.txt "<w:settings>".toList,
        XPart.dpTag " w:edit=\"readOnly\"".toList, XPart.txt "</w:settings>".toList])).1, 0)) ∧
    (processWorkbook (gjoin wbProtLit [GSeg.keep "<wb>".toList,
        GSeg.rem " x=\"1\"".toList, GSeg.keep "pwd</workbookProtection>".toList,
        GSeg.keep "</wb>".toList]) =
      (gkeeps [GSeg.keep "<wb>".toList, GSeg.rem " x=\"1\"".toList,
        GSeg.keep "pwd</workbookProtection>".toList, GSeg.keep "</wb>".toList], 1) ∧
    processWorkbook ((processWorkbook (gjoin wbProtLit [GSeg.keep "<wb>".toList,
        GSeg.rem " x=\"1\"".toList, GSeg.keep "pwd</workbookProtection>".toList,
        GSeg.keep "</wb>".toList])).1) =
      ((processWorkbook (gjoin wbProtLit [GSeg.keep "<wb>".toList,
        GSeg.rem " x=\"1\"".toList, GSeg.keep "pwd</workbookProtection>".toList,
        GSeg.keep "</wb>".toList])).1, 0)) ∧
    (processSheet (gjoin sheetProtLit [GSeg.keep "<ws>".toList,
        GSeg.rem " sheet=\"1\"/".toList,
        GSeg.keep "<picture id=\"rId1\"/><c/></ws>".toList]) =
      (gkeeps [GSeg.keep "<ws>".toList, GSeg.rem " id=\"rId1\"/".toList,
        GSeg.keep "<c/></ws>".toList], 1) ∧
    processSheet ((processSheet (gjoin sheetProtLit [GSeg.keep "<ws>".toList,
        GSeg.rem " sheet=\"1\"/".toList,
        GSeg.keep "<picture id=\"rId1\"/><c/></ws>".toList])).1) =
      ((processSheet (gjoin sheetProtLit [GSeg.keep "<ws>".toList,
        GSeg.rem " sheet=\"1\"/".toList,
        GSeg.keep "<picture id=\"rId1\"/><c/></ws>".toList])).1, 0)) ∧
    (processHeader (hjoin pictLit [HSeg.hkeep "<w:hdr>".toList,
        HSeg.hrem " w14:anchorId=\"A\"".toList
          "<v:shape type=\"#_x0000_t136\" id=\"s1\">x</v:shape></w:pict>".toList,
        HSeg.hkeep "</w:hdr>".toList]) =
      (hkeeps [HSeg.hkeep "<w:hdr>".toList,
        HSeg.hrem " w14:anchorId=\"A\"".toList
          "<v:shape type=\"#_x0000_t136\" id=\"s1\">x</v:shape></w:pict>".toList,
        HSeg.hkeep "</w:hdr>".toList], 1) ∧
    processHeader ((processHeader (hjoin pictLit [HSeg.hkeep "<w:hdr>".toList,
        HSeg.hrem " w14:anchorId=\"A\"".toList
          "<v:shape type=\"#_x0000_t136\" id=\"s1\">x</v:shape></w:pict>".toList,
        HSeg.hkeep "</w:hdr>".toList])).1) =
      ((processHeader (hjoin pictLit [HSeg.hkeep "<w:hdr>".toList,
        HSeg.hrem " w14:anchorId=\"A\"".toList
          "<v:shape type=\"#_x0000_t136\" id=\"s1\">x</v:shape></w:pict>".toList,
        HSeg.hkeep "</w:hdr>".toList])).1, 0)) ∧
    (processHeader (hjoin pictLit [HSeg.hkeep "<w:hdr>".toList,
        HSeg.hrem " id=\"p\"".toList
          "<v:shape style=\"rotation:315\">x</v:shape></w:pict>".toList,
        HSeg.hkeep "</w:hdr>".toList]) =
      (hkeeps [HSeg.hkeep "<w:hdr>".toList,
        HSeg.hrem " id=\"p\"".toList
          "<v:shape style=\"rotation:315\">x</v:shape></w:pict>".toList,
        HSeg.hkeep "</w:hdr>".toList], 1) ∧
    processHeader ((processHeader (hjoin pictLit [HSeg.hkeep "<w:hdr>".toList,
        HSeg.hrem " id=\"p\"".toList
          "<v:shape style=\"rotation:315\">x</v:shape></w:pict>".toList,
        HSeg.hkeep "</w:hdr>".toList])).1) =
      ((processHeader (hjoin pictLit [HSeg.hkeep "<w:hdr>".toList,
        HSeg.hrem " id=\"p\"".toList
          "<v:shape style=\"rotation:315\">x</v:shape></w:pict>".toList,
        HSeg.hkeep "</w:hdr>".toList])).1, 0)) ∧
    (processHeader (hjoin pictLit [HSeg.hkeep "<w:hdr>".toList,
        HSeg.hrem "".toList
          "<v:shape id=\"PowerPlusWaterMarkObject1\">x</v:shape></w:pict>".toList,
        HSeg.hkeep "</w:hdr>".toList]) =
      (hkeeps [HSeg.hkeep "<w:hdr>".toList,
        HSeg.hrem "".toList
          "<v:shape id=\"PowerPlusWaterMarkObject1\">x</v:shape></w:pict>".toList,
        HSeg.hkeep "</w:hdr>".toList], 1) ∧
    processHeader ((processHeader (hjoin pictLit [HSeg.hkeep "<w:hdr>".toList,
        HSeg.hrem "".toList
          "<v:shape id=\"PowerPlusWaterMarkObject1\">x</v:shape></w:pict>".toList,
        HSeg.hkeep "</w:hdr>".toList])).1) =
      ((processHeader (hjoin pictLit [HSeg.hkeep "<w:hdr>".toList,
        HSeg.hrem "".toList
          "<v:shape id=\"PowerPlusWaterMarkObject1\">x</v:shape></w:pict>".toList,
        HSeg.hkeep "</w:hdr>".toList])).1, 0)) ∧
    (processDocumentXml (hjoin bgLit [HSeg.hkeep "<w:document>".toList,
        HSeg.hrem " color=\"red\"".toList
          "<v:background/></w:background>".toList,
        HSeg.hkeep "<w:body/></w:document>".toList]) =
      (hkeeps [HSeg.hkeep "<w:document>".toList,
        HSeg.hrem " color=\"red\"".toList
          "<v:background/></w:background>".toList,
        HSeg.hkeep "<w:body/></w:document>".toList], 1) ∧
    processDocumentXml ((processDocumentXml (hjoin bgLit
        [HSeg.hkeep "<w:document>".toList,
        HSeg.hrem " color=\"red\"".toList
          "<v:background/></w:background>".toList,
        HSeg.hkeep "<w:body/></w:document>".toList])).1) =
      ((processDocumentXml (hjoin bgLit [HSeg.hkeep "<w:document>".toList,
        HSeg.hrem " color=\"red\"".toList
          "<v:background/></w:background>".toList,
        HSeg.hkeep "<w:body/></w:document>".toList])).1, 0)) ∧
    (processDocumentXml (hjoin bgLit [HSeg.hkeep "<w:document>".toList,
        HSeg.hrem " color=\"blue\"/".toList "".toList,
        HSeg.hkeep "<w:body/></w:document>".toList]) =
      (hkeeps [HSeg.hkeep "<w:document>".toList,
        HSeg.hrem " color=\"blue\"/".toList "".toList,
        HSeg.hkeep "<w:body/></w:document>".toList], 1) ∧
    processDocumentXml ((processDocumentXml (hjoin bgLit
        [HSeg.hkeep "<w:document>".toList,
        HSeg.hrem " color=\"blue\"/".toList "".toList,
        HSeg.hkeep "<w:body/></w:document>".toList])).1) =
      ((processDocumentXml (hjoin bgLit [HSeg.hkeep "<w:document>".toList,
        HSeg.hrem " color=\"blue\"/".toList "".toList,
        HSeg.hkeep "<w:body/></w:document>".toList])).1, 0)) := by
  obtain ⟨hS, hWb, hSh, hH1, hH2, hH3, hD1, hD2⟩ := C3_amended_idempotent_wf
  have w1 := hS [XPart.txt "<w:settings>".toList,
    XPart.dpTag " w:edit=\"readOnly\"".toList, XPart.txt "</w:settings>".toList]
    (by decide)
  have w2 := hWb [GSeg.keep "<wb>".toList, GSeg.rem " x=\"1\"".toList,
    GSeg.keep "pwd</workbookProtection>".toList, GSeg.keep "</wb>".toList]
    (by intro a ha; simp at ha; subst ha; decide) (by decide)
  have w3 := hSh [GSeg.keep "<ws>".toList, GSeg.rem " sheet=\"1\"/".toList,
      GSeg.keep "<picture id=\"rId1\"/><c/></ws>".toList]
    [GSeg.keep "<ws>".toList, GSeg.rem " id=\"rId1\"/".toList,
      GSeg.keep "<c/></ws>".toList]
    (by intro a ha; simp at ha; subst ha; decide) (by decide) (by decide)
    (by intro a ha; simp at ha; subst ha; decide) (by decide) (by decide)
  have w4 := hH1 [HSeg.hkeep "<w:hdr>".toList,
      HSeg.hrem " w14:anchorId=\"A\"".toList
        "<v:shape type=\"#_x0000_t136\" id=\"s1\">x</v:shape></w:pict>".toList,
      HSeg.hkeep "</w:hdr>".toList]
    (by
      intro a b hab
      simp at hab
      obtain ⟨ha, hb⟩ := hab
      subst ha
      subst hb
      exact ⟨by decide, "<v:shape ".toList, " id=\"s1\">x</v:shape>".toList,
        by decide, by decide, by decide⟩)
    (by decide)
  have w5 := hH2 [HSeg.hkeep "<w:hdr>".toList,
      HSeg.hrem " id=\"p\"".toList
        "<v:shape style=\"rotation:315\">x</v:shape></w:pict>".toList,
      HSeg.hkeep "</w:hdr>".toList]
    (by
      intro a b hab
      simp at hab
      obtain ⟨ha, hb⟩ := hab
      subst ha
      subst hb
      exact ⟨by decide, "<v:shape style=\"".toList, "315\">x</v:shape>".toList,
        by decide, by decide, by decide⟩)
    (by decide) (by decide)
  have w6 := hH3 [HSeg.hkeep "<w:hdr>".toList,
      HSeg.hrem "".toList
        "<v:shape id=\"PowerPlusWaterMarkObject1\">x</v:shape></w:pict>".toList,
      HSeg.hkeep "</w:hdr>".toList]
    (by
      intro a b hab
      simp at hab
      obtain ⟨ha, hb⟩ := hab
      subst ha
      subst hb
      exact ⟨by decide, "<v:shape id=\"".toList, "1\">x</v:shape>".toList,
        by decide, by decide, by decide⟩)
    (by decide) (by decide) (by decide)
  have w7 := hD1 [HSeg.hkeep "<w:document>".toList,
      HSeg.hrem " color=\"red\"".toList
        "<v:background/></w:background>".toList,
      HSeg.hkeep "<w:body/></w:document>".toList]
    (by
      intro a b hab
      simp at hab
      obtain ⟨ha, hb⟩ := hab
      subst ha
      subst hb
      exact ⟨by decide, "<v:background/>".toList, by decide, by decide⟩)
    (by decide)
  have w8 := hD2 [HSeg.hkeep "<w:document>".toList,
      HSeg.hrem " color=\"blue\"/".toList "".toList,
      HSeg.hkeep "<w:body/></w:document>".toList]
    (by
      intro a b hab
      simp at hab
      obtain ⟨ha, hb⟩ := hab
      subst ha
      subst hb
      exact ⟨by decide, " color=\"blue\"".toList, by decide, by decide⟩)
    (by decide) (by decide)
  refine ⟨⟨?_, w1.2⟩, ⟨?_, w2.2⟩, ⟨?_, w3.2⟩, ⟨?_, w4.2⟩, ⟨?_, w5.2⟩,
    ⟨?_, w6.2⟩, ⟨?_, w7.2⟩, ⟨?_, w8.2⟩⟩
  · rw [w1.1]
    decide
  · rw [w2.1]
    decide
  · rw [w3.1]
    decide
  · rw [w4.1]
    decide
  · rw [w5.1]
    decide
  · rw [w6.1]
    decide
  · rw [w7.1]
    decide
  · rw [w8.1]
    decide
